import Mathlib

/-!
# promlens-gmp-token-proxy: the token Mint and the proxying handler

A shallow embedding of `cmd/proxy/main.go`.

* Go strings are byte sequences (`GoString`).
* The mutable `Mint` is threaded explicitly; the Prometheus counters, the
  standard logger and the number of `TokenSource.Token()` invocations form the
  `World` that is threaded alongside it.
* The collaborators that live outside the repository and whose answers the
  code cannot foresee (the OAuth2 token source, the clock, the validation of the
  authority part of a URL inside `url.Parse`, `(*http.Client).Do`) are inputs
  collected in `Env`.
* The library functions whose result the handler depends on byte for byte
  (`(*url.URL).String`, `url.Parse`, `http.NewRequest`, `url.ParseQuery`,
  `Values.Del`, `Values.Encode`, `url.QueryEscape`, `url.QueryUnescape`,
  `textproto.CanonicalMIMEHeaderKey`, `Header.Values`, `Header.Add`,
  `Header.Set`, `http.Error`, `strconv.Itoa`) are transcribed from the Go
  standard library.
* An `http.ResponseWriter` is a recorder of the calls made on it; the panic of
  `WriteHeader` on a status code outside 100..999 is part of it.
-/

namespace Proxy

/-! ## Go strings -/

/-- One byte of a Go string. -/
abbrev Byte := Fin 256

/-- A Go `string`: an immutable sequence of bytes. -/
abbrev GoString := List Byte

/-- The Go string literal with the given (ASCII) text. -/
def str (s : String) : GoString :=
  s.toList.map (fun c => Fin.ofNat c.toNat)

/-! ## Telemetry and logging -/

/-- One `Inc()` on one of the counter vectors declared in `main.go`;
`proxiedStatus` carries the value of its `code` label. -/
inductive Event where
  | tokensTotal
  | tokensError
  | proxiedTotal
  | proxiedError
  | proxiedStatus (code : GoString)
  deriving DecidableEq, Repr

/-- The process-wide effects the code has besides the Mint and the HTTP
exchange: counter increments and log lines in the order they happen, and how
often `TokenSource.Token()` has been invoked so far. -/
structure World where
  metrics : List Event
  log : List GoString
  tokenCalls : Nat
  deriving DecidableEq, Repr

/-- Effect of `X.With(labels).Inc()`. -/
def World.inc (w : World) (e : Event) : World :=
  { w with metrics := w.metrics ++ [e] }

/-- Effect of `log.Print(msg)`. -/
def World.print (w : World) (msg : GoString) : World :=
  { w with log := w.log ++ [msg] }

/-! ## Token, TokenSource, Mint -/

/-- An instant (`time.Time`), as a count of clock ticks. -/
abbrev Time := Int

/-- The fields of `oauth2.Token` the program reads. -/
structure Token where
  AccessToken : GoString
  Expiry : Time
  deriving DecidableEq, Repr

/-- What one call of `TokenSource.Token()` hands back: the `*oauth2.Token`
(`none` is the nil pointer) and whether the `error` is non-nil. -/
structure TokenResult where
  token : Option Token
  err : Bool
  deriving DecidableEq, Repr

/-- An `oauth2.TokenSource`: the result of its `n`-th invocation (counting from 0). -/
abbrev TokenSource := Nat → TokenResult

/-- The mutable part of `Mint`: the cached `*oauth2.Token` (`none` is nil). -/
structure Mint where
  Token : Option Token
  deriving DecidableEq, Repr

/-- How a call of `GetAccessToken` ends: `(value, nil)`, `("", error)`, or a
nil-pointer panic at `m.Token.AccessToken`. -/
inductive TokenOutcome where
  | ok (value : GoString)
  | error (msg : GoString)
  | panic
  deriving DecidableEq, Repr

/-- The final `return m.Token.AccessToken, nil`. -/
def Mint.deref (m : Mint) : TokenOutcome :=
  match m.Token with
  | none => TokenOutcome.panic
  | some t => TokenOutcome.ok t.AccessToken

/-- The first half of `GetAccessToken`: the flag `ok` after the nil check and the
expiry check `m.Token.Expiry.Before(time.Now())`, with the log line printed. -/
def Mint.check (now : Time) (m : Mint) (w : World) : Bool × World :=
  match m.Token with
  | none => (false, w.print (str "No token cached"))
  | some t =>
    if t.Expiry < now then (false, w.print (str "Cached Token has expired"))
    else (true, w)

/-- The Go `func (m *Mint) GetAccessToken() (string, error)`. -/
def GetAccessToken (ts : TokenSource) (now : Time) (m : Mint) (w : World) :
    TokenOutcome × Mint × World :=
  let c := Mint.check now m w
  if !c.1 then
    let w1 := (c.2.print (str "Minting new Token")).inc Event.tokensTotal
    -- m.Token, err = m.TokenSource.Token()
    let r := ts w1.tokenCalls
    let w2 := { w1 with tokenCalls := w1.tokenCalls + 1 }
    let m1 : Mint := { Token := r.token }
    if r.err then
      let msg := str "unable to mint new Token"
      (TokenOutcome.error msg, m1, (w2.inc Event.tokensError).print msg)
    else
      (m1.deref, m1, w2)
  else
    (m.deref, m, c.2)

/-- A sequence of `GetAccessToken` calls at the given times: for each call its
outcome and the Mint and World it leaves behind. -/
def runCalls (ts : TokenSource) : Mint → World → List Time → List (TokenOutcome × Mint × World)
  | _, _, [] => []
  | m, w, now :: rest =>
    let r := GetAccessToken ts now m w
    r :: runCalls ts r.2.1 r.2.2 rest

/-! ## Go maps of string slices (`map[string][]string`) -/

/-- A Go `map[string][]string` (the underlying type of `http.Header` and of
`url.Values`), as an association list read by first match; the order of the
entries stands for the (unspecified) iteration order. -/
abbrev StrMap := List (GoString × List GoString)

/-- The map index expression `m[k]`: the nil slice when the key is absent. -/
def StrMap.get : StrMap → GoString → List GoString
  | [], _ => []
  | (k1, vs) :: rest, k => if k1 = k then vs else StrMap.get rest k

/-- The builtin `delete(m, k)`. -/
def StrMap.delete (m : StrMap) (k : GoString) : StrMap :=
  m.filter (fun e => decide (e.1 ≠ k))

/-- The assignment `m[k] = vs`. -/
def StrMap.set (m : StrMap) (k : GoString) (vs : List GoString) : StrMap :=
  (k, vs) :: m.delete k

/-- The keys a `for k := range m` visits, each once. -/
def StrMap.keys (m : StrMap) : List GoString :=
  (m.map Prod.fst).dedup

/-! ## `net/textproto` and `net/http` headers -/

/-- Membership of a byte in an inclusive range. -/
def inRange (lo hi c : Byte) : Bool := decide (lo ≤ c) && decide (c ≤ hi)

/-- The `validHeaderFieldByte` of `net/textproto`: the token characters of RFC 7230. -/
def validHeaderFieldByte (c : Byte) : Bool :=
  inRange 48 57 c || inRange 65 90 c || inRange 97 122 c ||
    decide (c ∈ str "!#$%&*+-.^_|~") || decide (c = 39) || decide (c = 96)

/-- The case-fixing loop of `canonicalMIMEHeaderKey`: upper case at the start and
after a hyphen, lower case elsewhere. -/
def canonCase : Bool → GoString → GoString
  | _, [] => []
  | upper, c :: rest =>
    let c1 : Byte :=
      if upper && inRange 97 122 c then c - 32
      else if !upper && inRange 65 90 c then c + 32
      else c
    c1 :: canonCase (decide (c1 = 45)) rest

/-- The `textproto.CanonicalMIMEHeaderKey`: a key holding a byte that is not a
header field byte is returned unchanged. -/
def CanonicalMIMEHeaderKey (s : GoString) : GoString :=
  if s.all validHeaderFieldByte then canonCase true s else s

/-- An `http.Header`. -/
abbrev Header := StrMap

/-- The Go `func (h Header) Values(key string) []string`. -/
def Header.Values (h : Header) (key : GoString) : List GoString :=
  StrMap.get h (CanonicalMIMEHeaderKey key)

/-- The Go `func (h Header) Add(key, value string)`. -/
def Header.Add (h : Header) (key value : GoString) : Header :=
  StrMap.set h (CanonicalMIMEHeaderKey key) (StrMap.get h (CanonicalMIMEHeaderKey key) ++ [value])

/-- The Go `func (h Header) Set(key, value string)`. -/
def Header.Set (h : Header) (key value : GoString) : Header :=
  StrMap.set h (CanonicalMIMEHeaderKey key) [value]

/-- The Go `func (h Header) Del(key string)`. -/
def Header.Del (h : Header) (key : GoString) : Header :=
  StrMap.delete h (CanonicalMIMEHeaderKey key)

/-- An `http.ResponseWriter`, recording what the handler does to it: the header
map, the status code once `WriteHeader` has run, and the bytes handed to `Write`. -/
structure ResponseWriter where
  header : Header
  code : Option Int
  body : GoString
  deriving DecidableEq, Repr

/-- The writer the server hands to a handler: nothing set, nothing written. -/
def ResponseWriter.fresh : ResponseWriter :=
  { header := [], code := none, body := [] }

/-- The `checkWriteHeaderCode` of `net/http`: `false` is its panic
`invalid WriteHeader code`, raised for a code below 100 or above 999. -/
def checkWriteHeaderCode (code : Int) : Bool :=
  !(decide (code < 100) || decide (code > 999))

/-- The call `w.WriteHeader(code)`: after the first call it does nothing; the
first call panics (`none`) on a code `checkWriteHeaderCode` refuses and records
the code otherwise. -/
def ResponseWriter.WriteHeader (w : ResponseWriter) (code : Int) : Option ResponseWriter :=
  match w.code with
  | some _ => some w
  | none => if checkWriteHeaderCode code then some { w with code := some code } else none

/-- The call `w.Write(b)`; makes an implicit `WriteHeader(200)` first when none was made. -/
def ResponseWriter.Write (w : ResponseWriter) (b : GoString) : ResponseWriter :=
  let w1 := match w.code with
    | none => { w with code := some 200 }
    | some _ => w
  { w1 with body := w1.body ++ b }

/-- The Go `http.Error(w, error, code)`; `none` is the panic of `WriteHeader`. -/
def httpError (w : ResponseWriter) (msg : GoString) (code : Int) : Option ResponseWriter :=
  let h0 := Header.Del w.header (str "Content-Length")
  let h1 := Header.Set h0 (str "Content-Type") (str "text/plain; charset=utf-8")
  let h2 := Header.Set h1 (str "X-Content-Type-Options") (str "nosniff")
  -- fmt.Fprintln(w, error)
  (ResponseWriter.WriteHeader { w with header := h2 } code).map
    (fun w1 => w1.Write (msg ++ str "\n"))

/-- The anonymous function that replicates the origin headers:
`for k, vv := range src { for _, v := range vv { dst.Add(k, v) } }`. -/
def copyHeader (dst src : Header) : Header :=
  (StrMap.keys src).foldl
    (fun d k => (StrMap.get src k).foldl (fun d1 v => Header.Add d1 k v) d) dst

/-- The Go `http.StatusInternalServerError`. -/
def StatusInternalServerError : Int := 500

/-- The Go `strconv.Itoa`. -/
def Itoa (n : Int) : GoString :=
  let digits : GoString := (Nat.toDigits 10 n.natAbs).map (fun c => Fin.ofNat c.toNat)
  if n < 0 then 45 :: digits else digits

/-! ## `net/url`: escaping -/

/-- The escaping modes of `net/url` that the program reaches. -/
inductive Encoding where
  | encodePath
  | encodeHost
  | encodeUserPassword
  | encodeQueryComponent
  | encodeFragment
  deriving DecidableEq, Repr

/-- The `ishex` of `net/url`. -/
def ishex (c : Byte) : Bool :=
  inRange 48 57 c || inRange 97 102 c || inRange 65 70 c

/-- The `unhex` of `net/url`. -/
def unhex (c : Byte) : Byte :=
  if inRange 48 57 c then c - 48
  else if inRange 97 102 c then c - 97 + 10
  else if inRange 65 70 c then c - 65 + 10
  else 0

/-- The byte `"0123456789ABCDEF"[n]`, for `n < 16`. -/
def upperhex (n : Nat) : Byte :=
  if n < 10 then Fin.ofNat (48 + n) else Fin.ofNat (55 + n)

/-- The `shouldEscape(c, mode)` of `net/url`. -/
def shouldEscape (c : Byte) (mode : Encoding) : Bool :=
  -- unreserved characters (alphanum)
  if inRange 97 122 c || inRange 65 90 c || inRange 48 57 c then false
  -- what a host may hold besides
  else if decide (mode = Encoding.encodeHost) &&
      (decide (c ∈ str "!$&()*+,;=:[]<>") || decide (c = 39) || decide (c = 34)) then false
  -- unreserved characters (mark)
  else if decide (c ∈ str "-_.~") then false
  -- reserved characters
  else if decide (c ∈ str "$&+,/:;=?@") then
    match mode with
    | Encoding.encodePath => decide (c = 63)
    | Encoding.encodeUserPassword =>
      decide (c = 64) || decide (c = 47) || decide (c = 63) || decide (c = 58)
    | Encoding.encodeQueryComponent => true
    | Encoding.encodeFragment => false
    | Encoding.encodeHost => true
  else if decide (mode = Encoding.encodeFragment) && decide (c ∈ str "!()*") then false
  -- everything else must be escaped
  else true

/-- What `escape(s, mode)` writes for one byte. -/
def escapeByte (c : Byte) (mode : Encoding) : GoString :=
  if shouldEscape c mode then
    if c = 32 ∧ mode = Encoding.encodeQueryComponent then [43]
    else [37, upperhex (c.val >>> 4), upperhex (c.val &&& 15)]
  else [c]

/-- The `escape(s, mode)` of `net/url`. -/
def escape (s : GoString) (mode : Encoding) : GoString :=
  s.flatMap (fun c => escapeByte c mode)

/-- The `unescape(s, mode)` of `net/url`; `none` stands for its error. -/
def unescape : GoString → Encoding → Option GoString
  | [], _ => some []
  | c :: rest, mode =>
    if c = 37 then
      match rest with
      | a :: b :: rest2 =>
        if ishex a && ishex b then
          -- in a host only non-ASCII bytes and %25 may be escaped
          if mode = Encoding.encodeHost ∧ unhex a < 8 ∧ ¬ (a = 50 ∧ b = 53) then none
          else (unescape rest2 mode).map (fun t => (unhex a <<< 4 ||| unhex b) :: t)
        else none
      | _ => none
    else if c = 43 then
      (unescape rest mode).map
        (fun t => (if mode = Encoding.encodeQueryComponent then 32 else 43) :: t)
    else if mode = Encoding.encodeHost ∧ c < 128 ∧ shouldEscape c Encoding.encodeHost = true then none
    else (unescape rest mode).map (fun t => c :: t)

/-- The Go `url.QueryEscape`. -/
def QueryEscape (s : GoString) : GoString :=
  escape s Encoding.encodeQueryComponent

/-- The Go `url.QueryUnescape`; `none` stands for the `EscapeError`. -/
def QueryUnescape (s : GoString) : Option GoString :=
  unescape s Encoding.encodeQueryComponent

/-- The `validEncoded(s, mode)` of `net/url`. -/
def validEncoded (s : GoString) (mode : Encoding) : Bool :=
  s.all (fun c =>
    decide (c ∈ str "!$&()*+,;=:@") || decide (c = 39) || decide (c ∈ str "[]") ||
      decide (c = 37) || !shouldEscape c mode)

/-! ## `net/url`: query strings -/

/-- The Go `strings.Cut(s, sep)` for a one-byte separator: the text before the first
separator, the text after it, and whether there was one. -/
def cut (sep : Byte) : GoString → GoString × GoString × Bool
  | [] => ([], [], false)
  | c :: rest =>
    if c = sep then ([], rest, true)
    else
      let r := cut sep rest
      (c :: r.1, r.2.1, r.2.2)

/-- The successive values `key` takes in the loop
`for query != "" { key, query, _ = strings.Cut(query, "&") ... }` of `parseQuery`,
followed by empty segments only. -/
def segments : GoString → List GoString
  | [] => [[]]
  | c :: rest =>
    if c = 38 then [] :: segments rest
    else
      match segments rest with
      | [] => [[c]]
      | seg :: segs => (c :: seg) :: segs

/-- One turn of the loop of `parseQuery`, for the segment `key`. -/
def parseSegment (m : StrMap) (key : GoString) : StrMap :=
  if (59 : Byte) ∈ key then m            -- invalid semicolon separator: continue
  else if key = [] then m                -- continue
  else
    let c := cut 61 key
    match QueryUnescape c.1 with
    | none => m
    | some k =>
      match QueryUnescape c.2.1 with
      | none => m
      | some v => StrMap.set m k (StrMap.get m k ++ [v])   -- m[key] = append(m[key], value)

/-- The default of the limit `urlmaxqueryparams` on the number of query parameters. -/
def defaultMaxParams : Nat := 10000

/-- The Go `url.ParseQuery`, without its error result: a query of more than
`defaultMaxParams` parameters (`strings.Count(query, "&") + 1`) is refused as a
whole and leaves the map empty. -/
def ParseQuery (query : GoString) : StrMap :=
  if query.count 38 + 1 > defaultMaxParams then []
  else (segments query).foldl parseSegment []

/-- Byte-wise lexicographic `a <= b`, the order of `slices.Sort` on strings. -/
def strLe : GoString → GoString → Bool
  | [], _ => true
  | _ :: _, [] => false
  | a :: as, b :: bs => decide (a < b) || (decide (a = b) && strLe as bs)

/-- The Go `func (v Values) Del(key string)`. -/
def Values.Del (v : StrMap) (key : GoString) : StrMap :=
  StrMap.delete v key

/-- The Go `func (v Values) Encode() string`. -/
def Values.Encode (v : StrMap) : GoString :=
  let keys := (StrMap.keys v).insertionSort (fun a b => strLe a b = true)
  keys.foldl
    (fun buf k =>
      let keyEscaped := QueryEscape k
      (StrMap.get v k).foldl
        (fun buf1 val =>
          (if buf1.length > 0 then buf1 ++ [38] else buf1) ++ keyEscaped ++ [61] ++ QueryEscape val)
        buf)
    []

/-! ## `net/url`: the URL, its text and its parser -/

/-- A `url.Userinfo`. -/
structure Userinfo where
  username : GoString
  password : GoString
  passwordSet : Bool
  deriving DecidableEq, Repr

/-- The Go `func (u *Userinfo) String() string`, for a non-nil receiver. -/
def Userinfo.String (u : Userinfo) : GoString :=
  escape u.username Encoding.encodeUserPassword ++
    (if u.passwordSet then 58 :: escape u.password Encoding.encodeUserPassword else [])

/-- A `url.URL`. -/
structure URL where
  Scheme : GoString
  Opaque : GoString
  User : Option Userinfo
  Host : GoString
  Path : GoString
  RawPath : GoString
  OmitHost : Bool
  ForceQuery : Bool
  RawQuery : GoString
  Fragment : GoString
  RawFragment : GoString
  deriving DecidableEq, Repr

/-- The zero `url.URL`. -/
def URL.zero : URL :=
  { Scheme := [], Opaque := [], User := none, Host := [], Path := [], RawPath := [],
    OmitHost := false, ForceQuery := false, RawQuery := [], Fragment := [], RawFragment := [] }

/-- The Go `func (u *URL) Query() Values`: the parse error is dropped. -/
def URL.Query (u : URL) : StrMap :=
  ParseQuery u.RawQuery

/-- The Go `func (u *URL) EscapedPath() string`. -/
def URL.EscapedPath (u : URL) : GoString :=
  if u.RawPath ≠ [] ∧ validEncoded u.RawPath Encoding.encodePath = true ∧
      unescape u.RawPath Encoding.encodePath = some u.Path then u.RawPath
  else if u.Path = str "*" then str "*"
  else escape u.Path Encoding.encodePath

/-- The Go `func (u *URL) EscapedFragment() string`. -/
def URL.EscapedFragment (u : URL) : GoString :=
  if u.RawFragment ≠ [] ∧ validEncoded u.RawFragment Encoding.encodeFragment = true ∧
      unescape u.RawFragment Encoding.encodeFragment = some u.Fragment then u.RawFragment
  else escape u.Fragment Encoding.encodeFragment

/-- What `String` writes between the scheme and the path when `Opaque` is empty:
the `//`, the user information and the host. -/
def URL.authorityText (u : URL) : GoString :=
  if u.Scheme ≠ [] ∨ u.Host ≠ [] ∨ u.User ≠ none then
    if u.OmitHost = true ∧ u.Host = [] ∧ u.User = none then []
    else
      (if u.Host ≠ [] ∨ u.Path ≠ [] ∨ u.User ≠ none then str "//" else []) ++
      (match u.User with
        | some ui => ui.String ++ [64]
        | none => []) ++
      (if u.Host ≠ [] then escape u.Host Encoding.encodeHost else [])
  else []

/-- The `/` that `String` writes between the host and a path that does not
start with one: `if path != "" && path[0] != '/' && u.Host != ""`. -/
def URL.hostPathSeparator (u : URL) : GoString :=
  if u.EscapedPath ≠ [] ∧ u.EscapedPath.head? ≠ some 47 ∧ u.Host ≠ [] then [47] else []

/-- The text of the query as `String` writes it: `?` and `RawQuery`, when
`ForceQuery` is set or `RawQuery` is not empty. -/
def URL.queryText (u : URL) : GoString :=
  if u.ForceQuery = true ∨ u.RawQuery ≠ [] then 63 :: u.RawQuery else []

/-- The text of the fragment as `String` writes it: `#` and the escaped
fragment, when `Fragment` is not empty. -/
def URL.fragmentText (u : URL) : GoString :=
  if u.Fragment ≠ [] then 35 :: u.EscapedFragment else []

/-- The Go `func (u *URL) String() string`. -/
def URL.String (u : URL) : GoString :=
  let buf0 : GoString := if u.Scheme ≠ [] then u.Scheme ++ [58] else []
  let buf1 : GoString :=
    if u.Opaque ≠ [] then buf0 ++ u.Opaque
    else
      let buf2 := buf0 ++ u.authorityText
      let path := u.EscapedPath
      let buf3 := buf2 ++ u.hostPathSeparator
      -- a relative path whose first segment holds a colon gets "./" in front
      let buf4 :=
        if buf3.length = 0 ∧ (58 : Byte) ∈ (cut 47 path).1 then buf3 ++ str "./" else buf3
      buf4 ++ path
  buf1 ++ u.queryText ++ u.fragmentText

/-- The `stringContainsCTLByte` of `net/url`. -/
def stringContainsCTLByte (s : GoString) : Bool :=
  s.any (fun b => decide (b < 32) || decide (b = 127))

/-- The loop of `getScheme`: `first` says whether the index is 0, `acc` is the
text before the index. -/
def getSchemeLoop (rawURL : GoString) : Bool → GoString → GoString → Option (GoString × GoString)
  | _, _, [] => some ([], rawURL)
  | first, acc, c :: rest =>
    if inRange 97 122 c || inRange 65 90 c then getSchemeLoop rawURL false (acc ++ [c]) rest
    else if inRange 48 57 c || decide (c = 43) || decide (c = 45) || decide (c = 46) then
      if first then some ([], rawURL) else getSchemeLoop rawURL false (acc ++ [c]) rest
    else if c = 58 then
      if first then none else some (acc, rest)
    else some ([], rawURL)

/-- The `getScheme` of `net/url`: the scheme and the text after its colon;
`none` is the error `missing protocol scheme`. -/
def getScheme (rawURL : GoString) : Option (GoString × GoString) :=
  getSchemeLoop rawURL true [] rawURL

/-- The Go `strings.ToLower` on a scheme, which holds ASCII bytes only. -/
def toLower (s : GoString) : GoString :=
  s.map (fun c => if inRange 65 90 c then c + 32 else c)

/-- The `func (u *URL) setPath(p string) error` of `net/url`. -/
def URL.setPath (u : URL) (p : GoString) : Option URL :=
  match unescape p Encoding.encodePath with
  | none => none
  | some path =>
    some { u with Path := path, RawPath := if p = escape path Encoding.encodePath then [] else p }

/-- The `func (u *URL) setFragment(f string) error` of `net/url`. -/
def URL.setFragment (u : URL) (f : GoString) : Option URL :=
  match unescape f Encoding.encodeFragment with
  | none => none
  | some frag =>
    some { u with
      Fragment := frag,
      RawFragment := if f = escape frag Encoding.encodeFragment then [] else f }

/-- The result of `parseAuthority`: the user information (`none` is nil) and the host. -/
abbrev Authority := Option Userinfo × GoString

/-- The part of `parse(rawURL, false)` that follows the splitting off of scheme
and query: opaque text, authority and path. `parseAuthority` validates and
decodes the authority; `none` is an error. -/
def parseTail (parseAuthority : GoString → Option Authority) (url : URL) (rest : GoString) :
    Option URL :=
  if ¬ (str "/").isPrefixOf rest = true ∧ url.Scheme ≠ [] then
    -- rootless paths are opaque
    some { url with Opaque := rest }
  else if ¬ (str "/").isPrefixOf rest = true ∧ (58 : Byte) ∈ (cut 47 rest).1 then
    -- first path segment in URL cannot contain colon
    none
  else if (url.Scheme ≠ [] ∨ ¬ (str "///").isPrefixOf rest = true) ∧
      (str "//").isPrefixOf rest = true then
    let c := cut 47 (rest.drop 2)
    let rest2 : GoString := if c.2.2 then 47 :: c.2.1 else []
    match parseAuthority c.1 with
    | none => none
    | some a => URL.setPath { url with User := a.1, Host := a.2 } rest2
  else if url.Scheme ≠ [] ∧ (str "/").isPrefixOf rest = true then
    URL.setPath { url with OmitHost := true } rest
  else URL.setPath url rest

/-- The `parse(rawURL, false)` of `net/url`. -/
def parse (parseAuthority : GoString → Option Authority) (rawURL : GoString) : Option URL :=
  if stringContainsCTLByte rawURL then none
  else if rawURL = str "*" then some { URL.zero with Path := str "*" }
  else
    match getScheme rawURL with
    | none => none
    | some s =>
      let url : URL := { URL.zero with Scheme := toLower s.1 }
      if s.2.getLast? = some 63 ∧ s.2.count 63 = 1 then
        parseTail parseAuthority { url with ForceQuery := true } s.2.dropLast
      else
        let c := cut 63 s.2
        parseTail parseAuthority { url with RawQuery := c.2.1 } c.1

/-- The Go `url.Parse`. -/
def Parse (parseAuthority : GoString → Option Authority) (rawURL : GoString) : Option URL :=
  let c := cut 35 rawURL
  match parse parseAuthority c.1 with
  | none => none
  | some url => if c.2.1 = [] then some url else url.setFragment c.2.1

/-! ## `net/http`: requests -/

/-- The `validMethod` of `net/http`: a non-empty token. -/
def validMethod (method : GoString) : Bool :=
  decide (method ≠ []) && method.all validHeaderFieldByte

/-- The Go `strings.LastIndex(s, sep)` for a one-byte separator, counted from `i`;
`-1` when there is none. -/
def lastIndexFrom (sep : Byte) : Int → GoString → Int
  | _, [] => -1
  | i, c :: rest =>
    let r := lastIndexFrom sep (i + 1) rest
    if r ≠ -1 then r else if c = sep then i else -1

/-- The `removeEmptyPort` of `net/http`: `host:` becomes `host`. -/
def removeEmptyPort (host : GoString) : GoString :=
  if lastIndexFrom 58 0 host > lastIndexFrom 93 0 host ∧ host.getLast? = some 58 then host.dropLast
  else host

/-- The inbound `*http.Request`. -/
structure Request where
  Method : GoString
  URL : URL
  Header : Header
  Body : GoString
  deriving DecidableEq, Repr

/-- The outbound `*http.Request` (`pRqst`). -/
structure OutRequest where
  Method : GoString
  URL : URL
  Header : Header
  Body : GoString
  Host : GoString
  deriving DecidableEq, Repr

/-- The upstream `*http.Response`. -/
structure Response where
  StatusCode : Int
  Header : Header
  Body : GoString
  deriving DecidableEq, Repr

/-- The Go `http.NewRequest(method, url, body)`; `none` is a non-nil error. -/
def NewRequest (parseAuthority : GoString → Option Authority) (method url body : GoString) :
    Option OutRequest :=
  let method1 := if method = [] then str "GET" else method
  if !validMethod method1 then none
  else
    match Parse parseAuthority url with
    | none => none
    | some u =>
      let u1 : URL := { u with Host := removeEmptyPort u.Host }
      some { Method := method1, URL := u1, Header := [], Body := body, Host := u1.Host }

/-! ## The handler -/

/-- What the handler gets from outside the repository. -/
structure Env where
  /-- Reading of `time.Now()`. -/
  now : Time
  /-- The Mint's `oauth2.TokenSource`. -/
  tokenSource : TokenSource
  /-- The `parseAuthority` of `net/url`, which validates and decodes the text
  between `//` and the path: `none` is an error. -/
  parseAuthority : GoString → Option Authority
  /-- The Go `client.Do`: `none` is a non-nil error. -/
  clientDo : OutRequest → Option Response

/-- What one run of the handler leaves behind. -/
structure HandlerResult where
  /-- The response writer. -/
  w : ResponseWriter
  /-- The inbound request, which the handler updates in place. -/
  rqst : Request
  mint : Mint
  world : World
  /-- The request given to `client.Do`, when that call was reached. -/
  sent : Option OutRequest
  /-- Whether the run ended in a panic: the nil-pointer panic of
  `GetAccessToken` or the panic of `WriteHeader`. -/
  panicked : Bool
  deriving DecidableEq, Repr

/-- The three statements `log.Print(msg)`, `http.Error(w, msg,
http.StatusInternalServerError)`, `return` that end a failed run. -/
def answerError (w : ResponseWriter) (msg : GoString) (rqst : Request) (m : Mint)
    (world : World) (sent : Option OutRequest) : HandlerResult :=
  match httpError w msg StatusInternalServerError with
  | some w1 =>
    { w := w1, rqst := rqst, mint := m, world := world.print msg, sent := sent,
      panicked := false }
  | none =>
    { w := w, rqst := rqst, mint := m, world := world.print msg, sent := sent,
      panicked := true }

/-- The part of the handler from `proxiedTotal...Inc()` on: the upstream call and
the relay of its response. -/
def forward (env : Env) (m : Mint) (world : World) (w : ResponseWriter) (rqst : Request)
    (pRqst : OutRequest) : HandlerResult :=
  let world1 := world.inc Event.proxiedTotal
  match env.clientDo pRqst with
  | none =>
    answerError w (str "unable to execute proxied request") rqst m
      (world1.inc Event.proxiedError) (some pRqst)
  | some pResp =>
    let world2 := world1.inc (Event.proxiedStatus (Itoa pResp.StatusCode))
    let w1 := { w with header := copyHeader w.header pResp.Header }
    match w1.WriteHeader pResp.StatusCode with
    | none =>
      { w := w1, rqst := rqst, mint := m, world := world2, sent := some pRqst,
        panicked := true }
    | some w2 =>
      -- io.Copy(w, pResp.Body)
      { w := w2.Write pResp.Body, rqst := rqst, mint := m, world := world2,
        sent := some pRqst, panicked := false }

/-- The first statements of the handler, which update `rqst.URL` in place: the
scheme becomes `https`, the host `remote`, the path `fmt.Sprintf("%s%s", prefix,
rqst.URL.Path)`, and the query is parsed, relieved of `refresh` and encoded again. -/
def rewriteURL (remote pre : GoString) (u : URL) : URL :=
  let u1 : URL := { u with Scheme := str "https", Host := remote, Path := pre ++ u.Path }
  let q := Values.Del u1.Query (str "refresh")
  { u1 with RawQuery := Values.Encode q }

/-- The function `handler(m, remote, prefix)` returns, run on `(w, rqst)`. -/
def handler (env : Env) (remote pre : GoString) (m : Mint) (world : World)
    (w : ResponseWriter) (rqst : Request) : HandlerResult :=
  let u2 : URL := rewriteURL remote pre rqst.URL
  let rqst1 : Request := { rqst with URL := u2 }
  let url := u2.String
  match NewRequest env.parseAuthority rqst.Method url rqst.Body with
  | none =>
    answerError w (str "unable to create proxied request") rqst1 m world none
  | some pRqst0 =>
    -- pRqst.Header = rqst.Header (one shared map)
    let pRqst : OutRequest := { pRqst0 with Header := rqst.Header }
    if (Header.Values pRqst.Header (str "Authorization")).length ≠ 0 then
      let msg := str "leaving unexpected Authorization header(s) on incoming request unchanged"
      forward env m (world.print msg) w rqst1 pRqst
    else
      match GetAccessToken env.tokenSource env.now m world with
      | (TokenOutcome.panic, m1, world1) =>
        { w := w, rqst := rqst1, mint := m1, world := world1, sent := none, panicked := true }
      | (TokenOutcome.error _, m1, world1) =>
        answerError w (str "unable to obtain token") rqst1 m1 world1 none
      | (TokenOutcome.ok token, m1, world1) =>
        let h := Header.Add pRqst.Header (str "Authorization") (str "Bearer " ++ token)
        forward env m1 world1 w { rqst1 with Header := h } { pRqst with Header := h }

/-! ## The pairs written by `Encode` -/

/-- What `Encode` writes for one key and one of its values: `key=value`, escaped. -/
def encodePair (kv : GoString × GoString) : GoString :=
  QueryEscape kv.1 ++ [61] ++ QueryEscape kv.2

/-- The key/value pairs `Encode` writes for the keys `ks`, in its order. -/
def pairsOf (v : StrMap) (ks : List GoString) : List (GoString × GoString) :=
  ks.flatMap (fun k => (StrMap.get v k).map (fun val => (k, val)))

/-- The query string that lists the given key/value pairs: each pair written as
`key=value`, escaped, the pairs joined by `&`. -/
def joinPairs : List (GoString × GoString) → GoString
  | [] => []
  | p :: ps => encodePair p ++ ps.flatMap (fun q => 38 :: encodePair q)

/-- A token source that never produces a token: every call returns `(nil, err)`. -/
def failingSource : TokenSource := fun _ => { token := none, err := true }

/-- A token source that always succeeds: its `n`-th token is `fresh` and
expires at `100 * (n + 1)`. -/
def steadySource : TokenSource :=
  fun n => { token := some { AccessToken := str "fresh", Expiry := 100 * (n + 1) }, err := false }

/-- The world before anything has happened. -/
def World.init : World := { metrics := [], log := [], tokenCalls := 0 }

/-- A sample upstream response with a repeated header. -/
def sampleResponse : Response :=
  { StatusCode := 200,
    Header := [(str "Content-Type", [str "application/json"]),
      (str "Set-Cookie", [str "a=1", str "b=2"])],
    Body := str "ok" }

/-- A sample of `parseAuthority`, for the authorities of the sample requests: a
host name of letters, digits, `.` and `-` with a numeric port is returned as it
is, without user information; anything else is refused. -/
def sampleParseAuthority (authority : GoString) : Option Authority :=
  let c := cut 58 authority
  if c.1 ≠ [] ∧ c.2.1 ≠ [] ∧
      c.1.all (fun b => inRange 97 122 b || inRange 65 90 b || inRange 48 57 b ||
        decide (b = 45) || decide (b = 46)) = true ∧
      c.2.1.all (fun b => inRange 48 57 b) = true then some (none, authority)
  else none

/-- A sample environment: the clock reads 10, tokens are minted, and the
upstream answers `sampleResponse`. -/
def sampleEnv : Env :=
  { now := 10,
    tokenSource := steadySource,
    parseAuthority := sampleParseAuthority,
    clientDo := fun _ => some sampleResponse }

/-- The sample environment with a token source that fails. -/
def noTokenEnv : Env := { sampleEnv with tokenSource := failingSource }

/-- The sample environment with an upstream that cannot be reached. -/
def downEnv : Env := { sampleEnv with clientDo := fun _ => none }

/-- The sample environment with an upstream that answers status `099`. -/
def oddStatusEnv : Env :=
  { sampleEnv with clientDo := fun _ => some { sampleResponse with StatusCode := 99 } }

/-- An inbound request without credentials. -/
def plainRequest : Request :=
  { Method := str "GET",
    URL := { URL.zero with Path := str "/query", RawQuery := str "refresh=30s&x=1" },
    Header := [(str "Accept", [str "*/*"])],
    Body := [] }

/-- An inbound request that brings two `Authorization` values. -/
def authedRequest : Request :=
  { plainRequest with
    Header := [(str "Authorization", [str "Basic abc", str "Bearer xyz"])] }

/-- An inbound request whose method `http.NewRequest` refuses. -/
def badMethodRequest : Request := { plainRequest with Method := str "GE T" }

/-! # Theorems -/

/-! ## The Mint -/

theorem GetAccessToken_cached (ts : TokenSource) (now : Time) (m : Mint) (w : World) (T : Token)
    (hT : m.Token = some T) (hnow : now ≤ T.Expiry) :
    GetAccessToken ts now m w = (TokenOutcome.ok T.AccessToken, m, w) := by
  have hlt : ¬ T.Expiry < now := not_lt.mpr hnow
  simp [GetAccessToken, Mint.check, Mint.deref, hT, hlt]

theorem GetAccessToken_fetch (ts : TokenSource) (now : Time) (m : Mint) (w : World)
    (hfetch : m.Token = none ∨ ∃ T, m.Token = some T ∧ T.Expiry < now) :
    (GetAccessToken ts now m w).2.1.Token = (ts w.tokenCalls).token ∧
    (GetAccessToken ts now m w).2.2.tokenCalls = w.tokenCalls + 1 ∧
    (GetAccessToken ts now m w).1 =
      (if (ts w.tokenCalls).err then TokenOutcome.error (str "unable to mint new Token")
       else Mint.deref ⟨(ts w.tokenCalls).token⟩) := by
  rcases hr : ts w.tokenCalls with ⟨tok, err⟩
  rcases hfetch with h | ⟨T, h, hlt⟩
  · cases err <;> simp [GetAccessToken, Mint.check, h, World.print, World.inc, hr]
  · cases err <;> simp [GetAccessToken, Mint.check, h, hlt, World.print, World.inc, hr]

theorem runCalls_cached_getElem (ts : TokenSource) (T : Token) (times : List Time) :
    ∀ (m : Mint) (w : World) (n : Nat) (tn : Time), m.Token = some T →
      times.Pairwise (fun a b => a ≤ b) → times[n]? = some tn → tn ≤ T.Expiry →
      (runCalls ts m w times)[n]? = some (TokenOutcome.ok T.AccessToken, m, w) := by
  induction times with
  | nil => intro m w n tn _ _ hn; simp at hn
  | cons t rest ih =>
    intro m w n tn hT hs hn hle
    have hs1 := List.pairwise_cons.mp hs
    cases n with
    | zero =>
      simp only [List.getElem?_cons_zero, Option.some.injEq] at hn
      subst hn
      simp [runCalls, GetAccessToken_cached ts t m w T hT hle]
    | succ n1 =>
      simp only [List.getElem?_cons_succ] at hn
      have hmem : tn ∈ rest := List.getElem?_mem hn
      have hfirst := GetAccessToken_cached ts t m w T hT (le_trans (hs1.1 tn hmem) hle)
      simp only [runCalls, hfirst, List.getElem?_cons_succ]
      exact ih m w n1 tn hT hs1.2 hn hle

/-- C4: in a sequence of `GetAccessToken` calls at non-decreasing times, once a
call has left the token `(v, E)` in the cache (as the fetch that minted it does),
every later call made at a time strictly before `E` returns `v` and leaves the
Mint and the World exactly as that call left them: the cache is unchanged and
the token source is not called again, so the window up to `E` costs the one
fetch that opened it. -/
theorem cached_token_reused_until_expiry (ts : TokenSource) (times : List Time) :
    ∀ (m : Mint) (w : World) (i j : Nat) (o : TokenOutcome) (mi : Mint) (wi : World)
      (v : GoString) (E tj : Time),
      times.Pairwise (fun a b => a ≤ b) → i < j →
      (runCalls ts m w times)[i]? = some (o, mi, wi) →
      mi.Token = some { AccessToken := v, Expiry := E } →
      times[j]? = some tj → tj < E →
      (runCalls ts m w times)[j]? = some (TokenOutcome.ok v, mi, wi) := by
  induction times with
  | nil => intro m w i j o mi wi v E tj _ _ _ _ hj; simp at hj
  | cons t rest ih =>
    intro m w i j o mi wi v E tj hs hij hi hc hj hlt
    have hs1 := List.pairwise_cons.mp hs
    cases j with
    | zero => exact absurd hij (Nat.not_lt_zero i)
    | succ j1 =>
      simp only [List.getElem?_cons_succ] at hj
      cases i with
      | zero =>
        simp only [runCalls, List.getElem?_cons_zero, Option.some.injEq] at hi
        simp only [runCalls, List.getElem?_cons_succ, hi]
        exact runCalls_cached_getElem ts { AccessToken := v, Expiry := E } rest mi wi j1 tj hc
          hs1.2 hj (le_of_lt hlt)
      | succ i1 =>
        simp only [runCalls, List.getElem?_cons_succ] at hi ⊢
        exact ih _ _ i1 j1 o mi wi v E tj hs1.2 (Nat.lt_of_succ_lt_succ hij) hi hc hj hlt

theorem cached_token_reused_until_expiry_witness :
    (runCalls steadySource { Token := none } World.init [10, 20, 20, 99, 150])[3]? =
      some (TokenOutcome.ok (str "fresh"),
        { Token := some { AccessToken := str "fresh", Expiry := 100 } },
        { metrics := [Event.tokensTotal],
          log := [str "No token cached", str "Minting new Token"],
          tokenCalls := 1 }) :=
  cached_token_reused_until_expiry steadySource [10, 20, 20, 99, 150] { Token := none }
    World.init 0 3 (TokenOutcome.ok (str "fresh"))
    { Token := some { AccessToken := str "fresh", Expiry := 100 } }
    { metrics := [Event.tokensTotal],
      log := [str "No token cached", str "Minting new Token"],
      tokenCalls := 1 }
    (str "fresh") 100 99 (by decide) (by decide) (by decide) rfl (by decide) (by decide)

/-- C3 as stated fails: a Mint caching the token `old`, expired at 5, is asked at
time 10 while the token source fails with `(nil, err)`. `GetAccessToken` returns
the error, but the cache is then nil: the stale token is gone. -/
theorem stale_token_discarded_on_failure :
    (5 : Time) < 10 ∧ (failingSource 0).err = true ∧
    (GetAccessToken failingSource 10 { Token := some { AccessToken := str "old", Expiry := 5 } }
        World.init).1 = TokenOutcome.error (str "unable to mint new Token") ∧
    (GetAccessToken failingSource 10 { Token := some { AccessToken := str "old", Expiry := 5 } }
        World.init).2.1.Token ≠ some { AccessToken := str "old", Expiry := 5 } := by
  decide

/-- C3, amended: when the cached token `T` has expired and the fetch fails,
`GetAccessToken` returns the error `unable to mint new Token`, and the cache then
holds whatever token pointer the token source returned next to its error (nil
for a source that returns no token with an error), not `T`. -/
theorem failed_fetch_overwrites_cache (ts : TokenSource) (now : Time) (m : Mint) (w : World)
    (T : Token) (hT : m.Token = some T) (hexp : T.Expiry < now)
    (herr : (ts w.tokenCalls).err = true) :
    (GetAccessToken ts now m w).1 = TokenOutcome.error (str "unable to mint new Token") ∧
    (GetAccessToken ts now m w).2.1.Token = (ts w.tokenCalls).token := by
  have h := GetAccessToken_fetch ts now m w (Or.inr ⟨T, hT, hexp⟩)
  refine ⟨?_, h.1⟩
  rw [h.2.2, if_pos herr]

theorem failed_fetch_overwrites_cache_witness :
    (GetAccessToken failingSource 10 { Token := some { AccessToken := str "old", Expiry := 5 } }
        World.init).1 = TokenOutcome.error (str "unable to mint new Token") ∧
    (GetAccessToken failingSource 10 { Token := some { AccessToken := str "old", Expiry := 5 } }
        World.init).2.1.Token = (failingSource World.init.tokenCalls).token :=
  failed_fetch_overwrites_cache failingSource 10
    { Token := some { AccessToken := str "old", Expiry := 5 } } World.init
    { AccessToken := str "old", Expiry := 5 } rfl (by decide) rfl

/-- C5 as stated fails: a Mint caching a token that expires at 7 is asked at
time 7 (`expiry == now`). No fetch is made: the token source call count stays
where it was and the cached value is returned. -/
theorem no_fetch_when_expiry_equals_now :
    (7 : Time) ≤ 7 ∧
    (GetAccessToken steadySource 7 { Token := some { AccessToken := str "cached", Expiry := 7 } }
        World.init).2.2.tokenCalls = World.init.tokenCalls ∧
    (GetAccessToken steadySource 7 { Token := some { AccessToken := str "cached", Expiry := 7 } }
        World.init).1 = TokenOutcome.ok (str "cached") := by
  decide

/-- C5, amended: with a token `T` cached, `GetAccessToken` calls the token source
exactly when `T.Expiry` is strictly before the current time; when the expiry is
at or after the current time (`expiry == now` included) the cached value is
returned and Mint and World are left untouched. -/
theorem fetch_iff_expiry_before_now (ts : TokenSource) (now : Time) (m : Mint) (w : World)
    (T : Token) (hT : m.Token = some T) :
    ((GetAccessToken ts now m w).2.2.tokenCalls = w.tokenCalls + 1 ↔ T.Expiry < now) ∧
    (GetAccessToken ts now m w = (TokenOutcome.ok T.AccessToken, m, w) ↔ now ≤ T.Expiry) := by
  rcases lt_or_le T.Expiry now with hlt | hle
  · have h := GetAccessToken_fetch ts now m w (Or.inr ⟨T, hT, hlt⟩)
    refine ⟨⟨fun _ => hlt, fun _ => h.2.1⟩, ⟨fun heq => ?_, fun hle => absurd hlt (not_lt.mpr hle)⟩⟩
    have h2 := h.2.1
    rw [heq] at h2
    simp at h2
  · have h := GetAccessToken_cached ts now m w T hT hle
    refine ⟨⟨fun heq => ?_, fun hlt => absurd hlt (not_lt.mpr hle)⟩, ⟨fun _ => hle, fun _ => h⟩⟩
    rw [h] at heq
    simp at heq

theorem fetch_iff_expiry_before_now_witness :
    ((GetAccessToken steadySource 7 { Token := some { AccessToken := str "cached", Expiry := 7 } }
        World.init).2.2.tokenCalls = World.init.tokenCalls + 1 ↔ (7 : Time) < 7) ∧
    (GetAccessToken steadySource 7 { Token := some { AccessToken := str "cached", Expiry := 7 } }
        World.init =
      (TokenOutcome.ok (str "cached"),
        { Token := some { AccessToken := str "cached", Expiry := 7 } }, World.init) ↔
      (7 : Time) ≤ 7) :=
  fetch_iff_expiry_before_now steadySource 7
    { Token := some { AccessToken := str "cached", Expiry := 7 } } World.init
    { AccessToken := str "cached", Expiry := 7 } rfl

/-! ## Maps -/

theorem StrMap.get_delete (m : StrMap) (k k1 : GoString) :
    StrMap.get (StrMap.delete m k) k1 = if k = k1 then [] else StrMap.get m k1 := by
  induction m with
  | nil => simp [StrMap.delete, StrMap.get]
  | cons e rest ih =>
    obtain ⟨a, vs⟩ := e
    simp only [StrMap.delete] at ih ⊢
    by_cases hak : a = k
    · subst hak
      simp only [List.filter, ne_eq, not_true_eq_false, decide_False]
      rw [ih]
      by_cases h1 : a = k1
      · simp [h1]
      · simp [h1, StrMap.get]
    · have : decide (a ≠ k) = true := by simp [hak]
      simp only [List.filter, this, StrMap.get]
      by_cases h1 : a = k1
      · subst h1
        have : ¬ k = a := fun h => hak h.symm
        simp [this]
      · simp only [h1, if_false]; exact ih

theorem StrMap.get_set (m : StrMap) (k k1 : GoString) (vs : List GoString) :
    StrMap.get (StrMap.set m k vs) k1 = if k = k1 then vs else StrMap.get m k1 := by
  by_cases h : k = k1
  · simp [StrMap.set, StrMap.get, h]
  · simp [StrMap.set, StrMap.get, h, StrMap.get_delete]

theorem StrMap.get_of_not_mem_keys (m : StrMap) (k : GoString) (h : k ∉ StrMap.keys m) :
    StrMap.get m k = [] := by
  induction m with
  | nil => rfl
  | cons e rest ih =>
    obtain ⟨a, vs⟩ := e
    simp only [StrMap.keys, List.map_cons, List.mem_dedup, List.mem_cons, not_or] at h ih
    have hne : ¬ a = k := fun hh => h.1 hh.symm
    simp only [StrMap.get, hne, if_false]
    exact ih h.2

theorem Header.Values_Add (h : Header) (key key1 value : GoString) :
    Header.Values (Header.Add h key value) key1 =
      if CanonicalMIMEHeaderKey key = CanonicalMIMEHeaderKey key1
      then Header.Values h key ++ [value] else Header.Values h key1 := by
  simp [Header.Values, Header.Add, StrMap.get_set]

theorem get_foldl_Add (k : GoString) (vs : List GoString) (d : Header) (k1 : GoString) :
    StrMap.get (vs.foldl (fun d1 v => Header.Add d1 k v) d) k1 =
      if CanonicalMIMEHeaderKey k = k1 then StrMap.get d k1 ++ vs else StrMap.get d k1 := by
  induction vs generalizing d with
  | nil => simp
  | cons v rest ih =>
    simp only [List.foldl_cons]
    rw [ih]
    by_cases h : CanonicalMIMEHeaderKey k = k1
    · subst h
      simp [Header.Add, StrMap.get_set]
    · simp [h, Header.Add, StrMap.get_set]

theorem get_copy_keys (src : Header) (ks : List GoString) (hnd : ks.Nodup)
    (hcanon : ∀ k ∈ ks, CanonicalMIMEHeaderKey k = k) (d : Header) (k1 : GoString) :
    StrMap.get (ks.foldl
        (fun d k => (StrMap.get src k).foldl (fun d1 v => Header.Add d1 k v) d) d) k1 =
      StrMap.get d k1 ++ (if k1 ∈ ks then StrMap.get src k1 else []) := by
  induction ks generalizing d with
  | nil => simp
  | cons a rest ih =>
    have ha : a ∉ rest := (List.nodup_cons.mp hnd).1
    have hca : CanonicalMIMEHeaderKey a = a := hcanon a (List.mem_cons_self _ _)
    simp only [List.foldl_cons]
    rw [ih (List.nodup_cons.mp hnd).2 (fun k hk => hcanon k (List.mem_cons_of_mem _ hk)),
      get_foldl_Add, hca]
    by_cases h : a = k1
    · subst h
      simp [ha]
    · have h2 : ¬ k1 = a := fun hh => h hh.symm
      simp [h, h2]

theorem get_copyHeader (src : Header)
    (hcanon : ∀ k ∈ StrMap.keys src, CanonicalMIMEHeaderKey k = k) (d : Header) (k1 : GoString) :
    StrMap.get (copyHeader d src) k1 = StrMap.get d k1 ++ StrMap.get src k1 := by
  unfold copyHeader
  rw [get_copy_keys src (StrMap.keys src) (List.nodup_dedup _) hcanon]
  by_cases h : k1 ∈ StrMap.keys src
  · simp [h]
  · simp [h, StrMap.get_of_not_mem_keys src k1 h]

theorem canonical_Authorization :
    CanonicalMIMEHeaderKey (str "Authorization") = str "Authorization" := by decide

/-! ## The handler, path by path -/

theorem answerError_eq (w : ResponseWriter) (msg : GoString) (rqst : Request) (m : Mint)
    (world : World) (sent : Option OutRequest) :
    ∃ w1, httpError w msg StatusInternalServerError = some w1 ∧
      answerError w msg rqst m world sent =
        { w := w1, rqst := rqst, mint := m, world := world.print msg, sent := sent,
          panicked := false } := by
  unfold answerError
  cases h : httpError w msg StatusInternalServerError with
  | some w1 => exact ⟨w1, rfl, rfl⟩
  | none =>
    exfalso
    unfold httpError ResponseWriter.WriteHeader at h
    simp only at h
    cases hc : w.code with
    | none =>
      rw [hc] at h
      simp [StatusInternalServerError, checkWriteHeaderCode] at h
    | some c =>
      rw [hc] at h
      simp at h

theorem answerError_fresh (msg : GoString) (rqst : Request) (m : Mint) (world : World)
    (sent : Option OutRequest) :
    (answerError ResponseWriter.fresh msg rqst m world sent).w.code = some 500 ∧
    (answerError ResponseWriter.fresh msg rqst m world sent).w.body = msg ++ str "\n" := by
  simp [answerError, httpError, ResponseWriter.fresh, ResponseWriter.WriteHeader,
    ResponseWriter.Write, StatusInternalServerError, checkWriteHeaderCode]

theorem handler_build_failed (env : Env) (remote pre : GoString) (m : Mint) (world : World)
    (w : ResponseWriter) (rqst : Request)
    (hbuild : NewRequest env.parseAuthority rqst.Method (rewriteURL remote pre rqst.URL).String
      rqst.Body = none) :
    handler env remote pre m world w rqst =
      answerError w (str "unable to create proxied request")
        { rqst with URL := rewriteURL remote pre rqst.URL } m world none := by
  simp [handler, hbuild]

theorem handler_passthrough (env : Env) (remote pre : GoString) (m : Mint) (world : World)
    (w : ResponseWriter) (rqst : Request) (p0 : OutRequest)
    (hbuild : NewRequest env.parseAuthority rqst.Method (rewriteURL remote pre rqst.URL).String
      rqst.Body = some p0)
    (hauth : Header.Values rqst.Header (str "Authorization") ≠ []) :
    handler env remote pre m world w rqst =
      forward env m
        (world.print (str "leaving unexpected Authorization header(s) on incoming request unchanged"))
        w { rqst with URL := rewriteURL remote pre rqst.URL }
        { p0 with Header := rqst.Header } := by
  simp [handler, hbuild, hauth]

theorem handler_mint (env : Env) (remote pre : GoString) (m : Mint) (world : World)
    (w : ResponseWriter) (rqst : Request) (p0 : OutRequest)
    (hbuild : NewRequest env.parseAuthority rqst.Method (rewriteURL remote pre rqst.URL).String
      rqst.Body = some p0)
    (hauth : Header.Values rqst.Header (str "Authorization") = []) :
    handler env remote pre m world w rqst =
      match GetAccessToken env.tokenSource env.now m world with
      | (TokenOutcome.panic, m1, world1) =>
        { w := w, rqst := { rqst with URL := rewriteURL remote pre rqst.URL }, mint := m1,
          world := world1, sent := none, panicked := true }
      | (TokenOutcome.error _, m1, world1) =>
        answerError w (str "unable to obtain token")
          { rqst with URL := rewriteURL remote pre rqst.URL } m1 world1 none
      | (TokenOutcome.ok token, m1, world1) =>
        forward env m1 world1 w
          { rqst with
            URL := rewriteURL remote pre rqst.URL,
            Header := Header.Add rqst.Header (str "Authorization") (str "Bearer " ++ token) }
          { p0 with
            Header := Header.Add rqst.Header (str "Authorization") (str "Bearer " ++ token) } := by
  simp [handler, hbuild, hauth]

theorem answerError_sent (w : ResponseWriter) (msg : GoString) (rqst : Request) (m : Mint)
    (world : World) (sent : Option OutRequest) :
    (answerError w msg rqst m world sent).sent = sent ∧
    (answerError w msg rqst m world sent).mint = m ∧
    (answerError w msg rqst m world sent).world = world.print msg ∧
    (answerError w msg rqst m world sent).rqst = rqst ∧
    (answerError w msg rqst m world sent).panicked = false := by
  obtain ⟨w1, _, h⟩ := answerError_eq w msg rqst m world sent
  rw [h]
  exact ⟨rfl, rfl, rfl, rfl, rfl⟩

theorem forward_sent (env : Env) (m : Mint) (world : World) (w : ResponseWriter) (rqst : Request)
    (p : OutRequest) : (forward env m world w rqst p).sent = some p := by
  unfold forward
  cases env.clientDo p with
  | none => exact (answerError_sent _ _ _ _ _ _).1
  | some pResp =>
    simp only
    cases ResponseWriter.WriteHeader _ pResp.StatusCode <;> rfl

theorem forward_mint (env : Env) (m : Mint) (world : World) (w : ResponseWriter) (rqst : Request)
    (p : OutRequest) : (forward env m world w rqst p).mint = m := by
  unfold forward
  cases env.clientDo p with
  | none => exact (answerError_sent _ _ _ _ _ _).2.1
  | some pResp =>
    simp only
    cases ResponseWriter.WriteHeader _ pResp.StatusCode <;> rfl

theorem forward_rqst (env : Env) (m : Mint) (world : World) (w : ResponseWriter) (rqst : Request)
    (p : OutRequest) : (forward env m world w rqst p).rqst = rqst := by
  unfold forward
  cases env.clientDo p with
  | none => exact (answerError_sent _ _ _ _ _ _).2.2.2.1
  | some pResp =>
    simp only
    cases ResponseWriter.WriteHeader _ pResp.StatusCode <;> rfl

theorem forward_world (env : Env) (m : Mint) (world : World) (w : ResponseWriter)
    (rqst : Request) (p : OutRequest) :
    (forward env m world w rqst p).world.tokenCalls = world.tokenCalls ∧
    (forward env m world w rqst p).world.metrics =
      world.metrics ++ [Event.proxiedTotal,
        match env.clientDo p with
        | none => Event.proxiedError
        | some pResp => Event.proxiedStatus (Itoa pResp.StatusCode)] := by
  unfold forward
  cases env.clientDo p with
  | none =>
    rw [(answerError_sent _ _ _ _ _ _).2.2.1]
    simp [World.inc, World.print]
  | some pResp =>
    simp only
    cases ResponseWriter.WriteHeader _ pResp.StatusCode <;> simp [World.inc]

theorem forward_relay (env : Env) (m : Mint) (world : World) (w : ResponseWriter) (rqst : Request)
    (p : OutRequest) (pResp : Response) (hdo : env.clientDo p = some pResp) :
    (forward env m world w rqst p).w =
      (match ResponseWriter.WriteHeader { w with header := copyHeader w.header pResp.Header }
          pResp.StatusCode with
        | none => { w with header := copyHeader w.header pResp.Header }
        | some w2 => w2.Write pResp.Body) ∧
    (forward env m world w rqst p).panicked =
      (ResponseWriter.WriteHeader { w with header := copyHeader w.header pResp.Header }
        pResp.StatusCode).isNone := by
  unfold forward
  simp only [hdo]
  cases ResponseWriter.WriteHeader _ pResp.StatusCode <;> exact ⟨rfl, rfl⟩

theorem NewRequest_fields (pa : GoString → Option Authority) (method url body : GoString)
    (p0 : OutRequest) (h : NewRequest pa method url body = some p0) :
    ∃ u, Parse pa url = some u ∧ p0.URL.Path = u.Path ∧ p0.URL.RawQuery = u.RawQuery := by
  unfold NewRequest at h
  cases hp : Parse pa url with
  | none => simp [hp] at h
  | some u =>
    by_cases hv : validMethod (if method = [] then str "GET" else method) = true
    · simp only [hv, Bool.not_true, Bool.false_eq_true, if_false, hp, Option.some.injEq] at h
      subst h
      exact ⟨u, rfl, rfl, rfl⟩
    · simp [hv] at h

/-- Whatever the run, a request given to the upstream is the one
`http.NewRequest` built, with a header map put in its place. -/
theorem handler_sent_cases (env : Env) (remote pre : GoString) (m : Mint) (world : World)
    (w : ResponseWriter) (rqst : Request) (p : OutRequest)
    (hsent : (handler env remote pre m world w rqst).sent = some p) :
    ∃ p0 h m1 world1 rqst1,
      NewRequest env.parseAuthority rqst.Method (rewriteURL remote pre rqst.URL).String
        rqst.Body = some p0 ∧
      p = { p0 with Header := h } ∧
      handler env remote pre m world w rqst = forward env m1 world1 w rqst1 p := by
  cases hbuild : NewRequest env.parseAuthority rqst.Method (rewriteURL remote pre rqst.URL).String
      rqst.Body with
  | none =>
    rw [handler_build_failed env remote pre m world w rqst hbuild,
      (answerError_sent _ _ _ _ _ _).1] at hsent
    simp at hsent
  | some p0 =>
    by_cases hauth : Header.Values rqst.Header (str "Authorization") = []
    · rw [handler_mint env remote pre m world w rqst p0 hbuild hauth] at hsent ⊢
      rcases hg : GetAccessToken env.tokenSource env.now m world with ⟨out, m1, world1⟩
      rw [hg] at hsent
      cases out with
      | panic => simp at hsent
      | error msg =>
        simp only [(answerError_sent _ _ _ _ _ _).1] at hsent
        simp at hsent
      | ok token =>
        simp only [forward_sent, Option.some.injEq] at hsent
        subst hsent
        exact ⟨p0, _, _, _, _, rfl, rfl, rfl⟩
    · rw [handler_passthrough env remote pre m world w rqst p0 hbuild hauth] at hsent ⊢
      simp only [forward_sent, Option.some.injEq] at hsent
      subst hsent
      exact ⟨p0, _, _, _, _, rfl, rfl, rfl⟩

/-- A request is given to the upstream whenever it can be built and
credentials are at hand. -/
theorem handler_sends (env : Env) (remote pre : GoString) (m : Mint) (world : World)
    (w : ResponseWriter) (rqst : Request)
    (hbuild : (NewRequest env.parseAuthority rqst.Method (rewriteURL remote pre rqst.URL).String
      rqst.Body).isSome = true)
    (hcred : Header.Values rqst.Header (str "Authorization") ≠ [] ∨
      ∃ t, (GetAccessToken env.tokenSource env.now m world).1 = TokenOutcome.ok t) :
    (handler env remote pre m world w rqst).sent ≠ none := by
  obtain ⟨p0, hp0⟩ := Option.isSome_iff_exists.mp hbuild
  by_cases hauth : Header.Values rqst.Header (str "Authorization") = []
  · rcases hcred with hcred | ⟨t, ht⟩
    · exact absurd hauth hcred
    · rw [handler_mint env remote pre m world w rqst p0 hp0 hauth]
      rcases hg : GetAccessToken env.tokenSource env.now m world with ⟨out, m1, world1⟩
      rw [hg] at ht
      simp only at ht
      subst ht
      simp [forward_sent]
  · rw [handler_passthrough env remote pre m world w rqst p0 hp0 hauth]
    simp [forward_sent]

theorem handler_rqst_URL (env : Env) (remote pre : GoString) (m : Mint) (world : World)
    (w : ResponseWriter) (rqst : Request) :
    (handler env remote pre m world w rqst).rqst.URL = rewriteURL remote pre rqst.URL := by
  cases hbuild : NewRequest env.parseAuthority rqst.Method (rewriteURL remote pre rqst.URL).String
      rqst.Body with
  | none =>
    rw [handler_build_failed env remote pre m world w rqst hbuild,
      (answerError_sent _ _ _ _ _ _).2.2.2.1]
  | some p0 =>
    by_cases hauth : Header.Values rqst.Header (str "Authorization") = []
    · rw [handler_mint env remote pre m world w rqst p0 hbuild hauth]
      rcases GetAccessToken env.tokenSource env.now m world with ⟨out, m1, world1⟩
      cases out with
      | panic => rfl
      | error msg => simp only [(answerError_sent _ _ _ _ _ _).2.2.2.1]
      | ok token => simp only [forward_rqst]
    · rw [handler_passthrough env remote pre m world w rqst p0 hbuild hauth, forward_rqst]

theorem GetAccessToken_metrics (ts : TokenSource) (now : Time) (m : Mint) (w : World) :
    match (GetAccessToken ts now m w).1 with
    | TokenOutcome.ok _ =>
      (GetAccessToken ts now m w).2.2.metrics = w.metrics ∨
      (GetAccessToken ts now m w).2.2.metrics = w.metrics ++ [Event.tokensTotal]
    | TokenOutcome.error _ =>
      (GetAccessToken ts now m w).2.2.metrics = w.metrics ++ [Event.tokensTotal, Event.tokensError]
    | TokenOutcome.panic =>
      (GetAccessToken ts now m w).2.2.metrics = w.metrics ++ [Event.tokensTotal] := by
  rcases hr : ts w.tokenCalls with ⟨tok, err⟩
  rcases m with ⟨_ | T⟩
  · cases err <;> cases tok <;>
      simp [GetAccessToken, Mint.check, Mint.deref, World.print, World.inc, hr]
  · by_cases hlt : T.Expiry < now
    · cases err <;> cases tok <;>
        simp [GetAccessToken, Mint.check, Mint.deref, World.print, World.inc, hr, hlt]
    · simp [GetAccessToken, Mint.check, Mint.deref, hlt]

/-! ## Credentials -/

/-- C1: when the inbound request has no `Authorization` value, the outbound
request can be built and `GetAccessToken` returns the token `t`, the request
given to the upstream carries exactly one `Authorization` value, `Bearer t`. -/
theorem bearer_token_injected (env : Env) (remote pre : GoString) (m : Mint) (world : World)
    (w : ResponseWriter) (rqst : Request) (t : GoString)
    (hauth : Header.Values rqst.Header (str "Authorization") = [])
    (hbuild : (NewRequest env.parseAuthority rqst.Method (rewriteURL remote pre rqst.URL).String
      rqst.Body).isSome = true)
    (htok : (GetAccessToken env.tokenSource env.now m world).1 = TokenOutcome.ok t) :
    ∃ p, (handler env remote pre m world w rqst).sent = some p ∧
      Header.Values p.Header (str "Authorization") = [str "Bearer " ++ t] := by
  obtain ⟨p0, hp0⟩ := Option.isSome_iff_exists.mp hbuild
  rw [handler_mint env remote pre m world w rqst p0 hp0 hauth]
  rcases hg : GetAccessToken env.tokenSource env.now m world with ⟨out, m1, world1⟩
  rw [hg] at htok
  simp only at htok
  subst htok
  refine ⟨_, forward_sent _ _ _ _ _ _, ?_⟩
  simp [Header.Values_Add, hauth]

theorem bearer_token_injected_witness :
    ∃ p, (handler sampleEnv (str "prom:9090") (str "/api/v1") { Token := none } World.init
        ResponseWriter.fresh plainRequest).sent = some p ∧
      Header.Values p.Header (str "Authorization") = [str "Bearer " ++ str "fresh"] :=
  bearer_token_injected sampleEnv (str "prom:9090") (str "/api/v1") { Token := none } World.init
    ResponseWriter.fresh plainRequest (str "fresh") (by decide) (by decide) (by decide)

/-- C2: when the inbound request has one or more `Authorization` values, the
Mint is left as it was, the token source is not called, no token counter moves,
and a request given to the upstream has the inbound header map, hence the same
`Authorization` values in the same order; such a request is given to the
upstream whenever it can be built. -/
theorem authorization_passed_through (env : Env) (remote pre : GoString) (m : Mint)
    (world : World) (w : ResponseWriter) (rqst : Request)
    (hauth : Header.Values rqst.Header (str "Authorization") ≠ []) :
    (handler env remote pre m world w rqst).mint = m ∧
    (handler env remote pre m world w rqst).world.tokenCalls = world.tokenCalls ∧
    (handler env remote pre m world w rqst).world.metrics.count Event.tokensTotal =
      world.metrics.count Event.tokensTotal ∧
    (∀ p, (handler env remote pre m world w rqst).sent = some p →
      p.Header = rqst.Header ∧
      Header.Values p.Header (str "Authorization") =
        Header.Values rqst.Header (str "Authorization")) ∧
    ((NewRequest env.parseAuthority rqst.Method (rewriteURL remote pre rqst.URL).String
        rqst.Body).isSome = true →
      (handler env remote pre m world w rqst).sent ≠ none) := by
  cases hbuild : NewRequest env.parseAuthority rqst.Method (rewriteURL remote pre rqst.URL).String
      rqst.Body with
  | none =>
    rw [handler_build_failed env remote pre m world w rqst hbuild]
    have h := answerError_sent w (str "unable to create proxied request")
      { rqst with URL := rewriteURL remote pre rqst.URL } m world none
    rw [h.1, h.2.1, h.2.2.1]
    simp [World.print]
  | some p0 =>
    rw [handler_passthrough env remote pre m world w rqst p0 hbuild hauth]
    refine ⟨forward_mint _ _ _ _ _ _, ?_, ?_, ?_, ?_⟩
    · rw [(forward_world _ _ _ _ _ _).1]; rfl
    · rw [(forward_world _ _ _ _ _ _).2]
      cases env.clientDo _ <;> simp [World.print, List.count_cons]
    · intro p hp
      rw [forward_sent] at hp
      simp only [Option.some.injEq] at hp
      subst hp
      exact ⟨rfl, rfl⟩
    · intro _
      rw [forward_sent]
      simp

theorem authorization_passed_through_witness :
    (handler sampleEnv (str "prom:9090") (str "/api/v1") { Token := none } World.init
        ResponseWriter.fresh authedRequest).mint = { Token := none } ∧
    (handler sampleEnv (str "prom:9090") (str "/api/v1") { Token := none } World.init
        ResponseWriter.fresh authedRequest).world.tokenCalls = World.init.tokenCalls ∧
    (handler sampleEnv (str "prom:9090") (str "/api/v1") { Token := none } World.init
        ResponseWriter.fresh authedRequest).world.metrics.count Event.tokensTotal =
      World.init.metrics.count Event.tokensTotal ∧
    (∀ p, (handler sampleEnv (str "prom:9090") (str "/api/v1") { Token := none } World.init
        ResponseWriter.fresh authedRequest).sent = some p →
      p.Header = authedRequest.Header ∧
      Header.Values p.Header (str "Authorization") =
        Header.Values authedRequest.Header (str "Authorization")) ∧
    ((NewRequest sampleEnv.parseAuthority authedRequest.Method
        (rewriteURL (str "prom:9090") (str "/api/v1") authedRequest.URL).String
        authedRequest.Body).isSome = true →
      (handler sampleEnv (str "prom:9090") (str "/api/v1") { Token := none } World.init
        ResponseWriter.fresh authedRequest).sent ≠ none) :=
  authorization_passed_through sampleEnv (str "prom:9090") (str "/api/v1") { Token := none }
    World.init ResponseWriter.fresh authedRequest (by decide)

/-! ## Failures -/

/-- C8: when the outbound request cannot be built, or when it can, the inbound
request has no `Authorization` value and `GetAccessToken` returns an error, the
handler makes no upstream call and answers with status 500 and a constant
message, the same for every Mint and every token source. -/
theorem failure_answers_500_without_upstream_call (env : Env) (remote pre : GoString) (m : Mint)
    (world : World) (rqst : Request)
    (hfail :
      NewRequest env.parseAuthority rqst.Method (rewriteURL remote pre rqst.URL).String
        rqst.Body = none ∨
      ((NewRequest env.parseAuthority rqst.Method (rewriteURL remote pre rqst.URL).String
          rqst.Body).isSome = true ∧
        Header.Values rqst.Header (str "Authorization") = [] ∧
        ∃ msg, (GetAccessToken env.tokenSource env.now m world).1 = TokenOutcome.error msg)) :
    (handler env remote pre m world ResponseWriter.fresh rqst).sent = none ∧
    (handler env remote pre m world ResponseWriter.fresh rqst).panicked = false ∧
    (handler env remote pre m world ResponseWriter.fresh rqst).w.code = some 500 ∧
    (handler env remote pre m world ResponseWriter.fresh rqst).w.body =
      (if (NewRequest env.parseAuthority rqst.Method (rewriteURL remote pre rqst.URL).String
          rqst.Body).isSome = true
       then str "unable to obtain token\n" else str "unable to create proxied request\n") := by
  rcases hfail with hbuild | ⟨hbuild, hauth, msg, herr⟩
  · rw [handler_build_failed env remote pre m world _ rqst hbuild]
    have h1 := answerError_sent ResponseWriter.fresh (str "unable to create proxied request")
      { rqst with URL := rewriteURL remote pre rqst.URL } m world none
    have h2 := answerError_fresh (str "unable to create proxied request")
      { rqst with URL := rewriteURL remote pre rqst.URL } m world none
    refine ⟨h1.1, h1.2.2.2.2, h2.1, ?_⟩
    rw [h2.2, hbuild]
    decide
  · obtain ⟨p0, hp0⟩ := Option.isSome_iff_exists.mp hbuild
    rw [handler_mint env remote pre m world _ rqst p0 hp0 hauth]
    rcases hg : GetAccessToken env.tokenSource env.now m world with ⟨out, m1, world1⟩
    rw [hg] at herr
    simp only at herr
    subst herr
    have h1 := answerError_sent ResponseWriter.fresh (str "unable to obtain token")
      { rqst with URL := rewriteURL remote pre rqst.URL } m1 world1 none
    have h2 := answerError_fresh (str "unable to obtain token")
      { rqst with URL := rewriteURL remote pre rqst.URL } m1 world1 none
    refine ⟨h1.1, h1.2.2.2.2, h2.1, ?_⟩
    simp only
    rw [h2.2, hp0]
    simp only [Option.isSome_some, if_true]
    decide

theorem failure_answers_500_without_upstream_call_witness :
    ((handler noTokenEnv (str "prom:9090") (str "/api/v1") { Token := none } World.init
        ResponseWriter.fresh plainRequest).sent = none ∧
      (handler noTokenEnv (str "prom:9090") (str "/api/v1") { Token := none } World.init
        ResponseWriter.fresh plainRequest).w.body = str "unable to obtain token\n") ∧
    ((handler sampleEnv (str "prom:9090") (str "/api/v1") { Token := none } World.init
        ResponseWriter.fresh badMethodRequest).sent = none ∧
      (handler sampleEnv (str "prom:9090") (str "/api/v1") { Token := none } World.init
        ResponseWriter.fresh badMethodRequest).w.body = str "unable to create proxied request\n") := by
  have h1 := failure_answers_500_without_upstream_call noTokenEnv (str "prom:9090")
    (str "/api/v1") { Token := none } World.init plainRequest
    (Or.inr ⟨by decide, by decide, str "unable to mint new Token", by decide⟩)
  have h2 := failure_answers_500_without_upstream_call sampleEnv (str "prom:9090")
    (str "/api/v1") { Token := none } World.init badMethodRequest (Or.inl (by decide))
  refine ⟨⟨h1.1, ?_⟩, ⟨h2.1, ?_⟩⟩
  · rw [h1.2.2.2]; decide
  · rw [h2.2.2.2]; decide

/-! ## The relay -/

/-- C9 as stated fails: the upstream of `oddStatusEnv` answers with the status
line `099`, which `client.Do` delivers as a response with status code 99. The
upstream call is made and succeeds, the handler copies the headers, and then
`w.WriteHeader(99)` panics: no status code is written (so not 99) and no body
(so not the body `ok` of the response). -/
theorem odd_status_not_relayed :
    (handler oddStatusEnv (str "prom:9090") (str "/api/v1") { Token := none } World.init
        ResponseWriter.fresh plainRequest).sent ≠ none ∧
    (handler oddStatusEnv (str "prom:9090") (str "/api/v1") { Token := none } World.init
        ResponseWriter.fresh plainRequest).w.code = none ∧
    (handler oddStatusEnv (str "prom:9090") (str "/api/v1") { Token := none } World.init
        ResponseWriter.fresh plainRequest).w.code ≠ some 99 ∧
    (handler oddStatusEnv (str "prom:9090") (str "/api/v1") { Token := none } World.init
        ResponseWriter.fresh plainRequest).w.body = [] ∧
    (handler oddStatusEnv (str "prom:9090") (str "/api/v1") { Token := none } World.init
        ResponseWriter.fresh plainRequest).w.body ≠ str "ok" ∧
    (handler oddStatusEnv (str "prom:9090") (str "/api/v1") { Token := none } World.init
        ResponseWriter.fresh plainRequest).panicked = true := by
  decide

/-- C9, amended: when the upstream call for the outbound request `p` returns the
response `pResp` (its header keys in canonical form, as `net/http` delivers
them) and the status code of `pResp` lies between 100 and 999, the handler,
writing to a fresh response writer, records the status code of `pResp`, for
every header name exactly the values `pResp` has for it, in the same order, and
a body equal to the body of `pResp`. For a status code below 100 or above 999
the handler panics in `WriteHeader`: the headers are copied, but no status code
and no body is written. -/
theorem upstream_response_relayed (env : Env) (remote pre : GoString) (m : Mint) (world : World)
    (rqst : Request) (p : OutRequest) (pResp : Response)
    (hsent : (handler env remote pre m world ResponseWriter.fresh rqst).sent = some p)
    (hdo : env.clientDo p = some pResp)
    (hcanon : ∀ k ∈ StrMap.keys pResp.Header, CanonicalMIMEHeaderKey k = k) :
    (∀ k, StrMap.get (handler env remote pre m world ResponseWriter.fresh rqst).w.header k =
      StrMap.get pResp.Header k) ∧
    (100 ≤ pResp.StatusCode ∧ pResp.StatusCode ≤ 999 →
      (handler env remote pre m world ResponseWriter.fresh rqst).w.code = some pResp.StatusCode ∧
      (handler env remote pre m world ResponseWriter.fresh rqst).w.body = pResp.Body ∧
      (handler env remote pre m world ResponseWriter.fresh rqst).panicked = false) ∧
    (pResp.StatusCode < 100 ∨ 999 < pResp.StatusCode →
      (handler env remote pre m world ResponseWriter.fresh rqst).w.code = none ∧
      (handler env remote pre m world ResponseWriter.fresh rqst).w.body = [] ∧
      (handler env remote pre m world ResponseWriter.fresh rqst).panicked = true) := by
  obtain ⟨p0, h, m1, world1, rqst1, _, _, hh⟩ :=
    handler_sent_cases env remote pre m world ResponseWriter.fresh rqst p hsent
  have hr := forward_relay env m1 world1 ResponseWriter.fresh rqst1 p pResp hdo
  rw [hh, hr.1, hr.2]
  have hhead : ∀ k, StrMap.get (copyHeader [] pResp.Header) k = StrMap.get pResp.Header k := by
    intro k
    rw [get_copyHeader pResp.Header hcanon]
    simp [StrMap.get]
  by_cases hc : checkWriteHeaderCode pResp.StatusCode = true
  · have hrange : 100 ≤ pResp.StatusCode ∧ pResp.StatusCode ≤ 999 := by
      simp only [checkWriteHeaderCode, Bool.not_eq_true', Bool.or_eq_false_iff,
        decide_eq_false_iff_not, not_lt] at hc
      exact ⟨hc.1, hc.2⟩
    refine ⟨?_, ?_, ?_⟩
    · intro k
      simp only [ResponseWriter.fresh, ResponseWriter.WriteHeader, hc, if_true,
        ResponseWriter.Write]
      exact hhead k
    · intro _
      simp [ResponseWriter.fresh, ResponseWriter.WriteHeader, hc, ResponseWriter.Write]
    · intro hbad
      omega
  · have hrange : pResp.StatusCode < 100 ∨ 999 < pResp.StatusCode := by
      simp only [checkWriteHeaderCode, Bool.not_eq_true', Bool.or_eq_false_iff,
        decide_eq_false_iff_not, not_lt, not_and, not_le] at hc
      by_cases h100 : 100 ≤ pResp.StatusCode
      · exact Or.inr (hc h100)
      · exact Or.inl (lt_of_not_le h100)
    refine ⟨?_, ?_, ?_⟩
    · intro k
      simp only [ResponseWriter.fresh, ResponseWriter.WriteHeader, hc, if_false]
      exact hhead k
    · intro hgood
      omega
    · intro _
      simp [ResponseWriter.fresh, ResponseWriter.WriteHeader, hc]

theorem upstream_response_relayed_witness :
    (∀ k, StrMap.get (handler sampleEnv (str "prom:9090") (str "/api/v1") { Token := none }
        World.init ResponseWriter.fresh plainRequest).w.header k =
      StrMap.get sampleResponse.Header k) ∧
    (100 ≤ sampleResponse.StatusCode ∧ sampleResponse.StatusCode ≤ 999 →
      (handler sampleEnv (str "prom:9090") (str "/api/v1") { Token := none } World.init
        ResponseWriter.fresh plainRequest).w.code = some sampleResponse.StatusCode ∧
      (handler sampleEnv (str "prom:9090") (str "/api/v1") { Token := none } World.init
        ResponseWriter.fresh plainRequest).w.body = sampleResponse.Body ∧
      (handler sampleEnv (str "prom:9090") (str "/api/v1") { Token := none } World.init
        ResponseWriter.fresh plainRequest).panicked = false) ∧
    (sampleResponse.StatusCode < 100 ∨ 999 < sampleResponse.StatusCode →
      (handler sampleEnv (str "prom:9090") (str "/api/v1") { Token := none } World.init
        ResponseWriter.fresh plainRequest).w.code = none ∧
      (handler sampleEnv (str "prom:9090") (str "/api/v1") { Token := none } World.init
        ResponseWriter.fresh plainRequest).w.body = [] ∧
      (handler sampleEnv (str "prom:9090") (str "/api/v1") { Token := none } World.init
        ResponseWriter.fresh plainRequest).panicked = true) :=
  upstream_response_relayed sampleEnv (str "prom:9090") (str "/api/v1") { Token := none }
    World.init plainRequest
    { Method := str "GET",
      URL := { URL.zero with
        Scheme := str "https", Host := str "prom:9090", Path := str "/api/v1/query",
        RawQuery := str "x=1" },
      Header := [(str "Authorization", [str "Bearer fresh"]), (str "Accept", [str "*/*"])],
      Body := [],
      Host := str "prom:9090" }
    sampleResponse (by decide) rfl (by decide)

/-! ## Escaping -/

set_option maxRecDepth 1000000 in
theorem escapeByte_shape (c : Byte) (mode : Encoding) :
    (escapeByte c mode = [c] ∧ c ≠ 37 ∧ (c = 43 → mode ≠ Encoding.encodeQueryComponent)) ∨
    (c = 32 ∧ mode = Encoding.encodeQueryComponent ∧ escapeByte c mode = [43]) ∨
    (escapeByte c mode = [37, upperhex (c.val >>> 4), upperhex (c.val &&& 15)] ∧
      ishex (upperhex (c.val >>> 4)) = true ∧ ishex (upperhex (c.val &&& 15)) = true ∧
      (unhex (upperhex (c.val >>> 4)) <<< 4 ||| unhex (upperhex (c.val &&& 15))) = c) := by
  cases mode <;> revert c <;> decide

set_option maxRecDepth 1000000 in
theorem escapeByte_query_clean (c : Byte) :
    (escapeByte c Encoding.encodeQueryComponent).all
      (fun b => decide (b ≠ 38) && decide (b ≠ 59) && decide (b ≠ 61) && decide (b ≠ 63) &&
        decide (b ≠ 35)) = true := by
  revert c
  decide

set_option maxRecDepth 1000000 in
theorem escapeByte_path_clean (c : Byte) :
    (escapeByte c Encoding.encodePath).all
      (fun b => decide (b ≠ 63) && decide (b ≠ 35)) = true := by
  revert c
  decide

set_option maxRecDepth 1000000 in
theorem escapeByte_host_clean (c : Byte) :
    (escapeByte c Encoding.encodeHost).all
      (fun b => decide (b ≠ 47) && decide (b ≠ 63) && decide (b ≠ 35)) = true := by
  revert c
  decide

set_option maxRecDepth 1000000 in
theorem escapeByte_user_clean (c : Byte) :
    (escapeByte c Encoding.encodeUserPassword).all
      (fun b => decide (b ≠ 47) && decide (b ≠ 63) && decide (b ≠ 35)) = true := by
  revert c
  decide

set_option maxRecDepth 1000000 in
theorem escapeByte_path_head (c : Byte) :
    (escapeByte c Encoding.encodePath).head? = some 47 ↔ c = 47 := by
  revert c
  decide

set_option maxRecDepth 1000000 in
theorem validEncoded_byte_clean (c : Byte) :
    (decide (c ∈ str "!$&()*+,;=:@") || decide (c = 39) || decide (c ∈ str "[]") ||
      decide (c = 37) || !shouldEscape c Encoding.encodePath) = true → c ≠ 63 ∧ c ≠ 35 := by
  revert c
  decide

theorem escapeByte_ne_nil (c : Byte) (mode : Encoding) : escapeByte c mode ≠ [] := by
  rcases escapeByte_shape c mode with ⟨h, _⟩ | ⟨_, _, h⟩ | ⟨h, _⟩ <;> rw [h] <;> simp

theorem escape_cons (c : Byte) (rest : GoString) (mode : Encoding) :
    escape (c :: rest) mode = escapeByte c mode ++ escape rest mode := by
  simp [escape]

theorem mem_escape (s : GoString) (mode : Encoding) (b : Byte) (hb : b ∈ escape s mode) :
    ∃ c, b ∈ escapeByte c mode := by
  simp only [escape, List.mem_flatMap] at hb
  obtain ⟨c, _, hc⟩ := hb
  exact ⟨c, hc⟩

theorem escape_query_clean (s : GoString) (b : Byte) (hb : b ∈ QueryEscape s) :
    b ≠ 38 ∧ b ≠ 59 ∧ b ≠ 61 ∧ b ≠ 63 ∧ b ≠ 35 := by
  obtain ⟨c, hc⟩ := mem_escape s _ b hb
  have h := List.all_eq_true.mp (escapeByte_query_clean c) b hc
  simp only [Bool.and_eq_true, decide_eq_true_eq] at h
  exact ⟨h.1.1.1.1, h.1.1.1.2, h.1.1.2, h.1.2, h.2⟩

theorem escape_path_clean (s : GoString) (b : Byte) (hb : b ∈ escape s Encoding.encodePath) :
    b ≠ 63 ∧ b ≠ 35 := by
  obtain ⟨c, hc⟩ := mem_escape s _ b hb
  have h := List.all_eq_true.mp (escapeByte_path_clean c) b hc
  simpa using h

theorem escape_host_clean (s : GoString) (b : Byte) (hb : b ∈ escape s Encoding.encodeHost) :
    b ≠ 47 ∧ b ≠ 63 ∧ b ≠ 35 := by
  obtain ⟨c, hc⟩ := mem_escape s _ b hb
  have h := List.all_eq_true.mp (escapeByte_host_clean c) b hc
  simp only [Bool.and_eq_true, decide_eq_true_eq] at h
  exact ⟨h.1.1, h.1.2, h.2⟩

theorem escape_user_clean (s : GoString) (b : Byte)
    (hb : b ∈ escape s Encoding.encodeUserPassword) : b ≠ 47 ∧ b ≠ 63 ∧ b ≠ 35 := by
  obtain ⟨c, hc⟩ := mem_escape s _ b hb
  have h := List.all_eq_true.mp (escapeByte_user_clean c) b hc
  simp only [Bool.and_eq_true, decide_eq_true_eq] at h
  exact ⟨h.1.1, h.1.2, h.2⟩

theorem validEncoded_path_clean (s : GoString) (h : validEncoded s Encoding.encodePath = true)
    (b : Byte) (hb : b ∈ s) : b ≠ 63 ∧ b ≠ 35 :=
  validEncoded_byte_clean b (List.all_eq_true.mp h b hb)

theorem unescape_cons_plain (c : Byte) (rest : GoString) (mode : Encoding) (h1 : c ≠ 37)
    (h2 : c ≠ 43) (hm : mode ≠ Encoding.encodeHost) :
    unescape (c :: rest) mode = (unescape rest mode).map (fun t => c :: t) := by
  rcases rest with _ | ⟨a, _ | ⟨b, t⟩⟩ <;> simp [unescape, h1, h2, hm]

theorem unescape_cons_plus (rest : GoString) (mode : Encoding) :
    unescape (43 :: rest) mode =
      (unescape rest mode).map
        (fun t => (if mode = Encoding.encodeQueryComponent then 32 else 43) :: t) := by
  rcases rest with _ | ⟨a, _ | ⟨b, t⟩⟩ <;> simp [unescape]

theorem unescape_cons_percent (a b : Byte) (rest : GoString) (mode : Encoding)
    (ha : ishex a = true) (hb : ishex b = true) (hm : mode ≠ Encoding.encodeHost) :
    unescape (37 :: a :: b :: rest) mode =
      (unescape rest mode).map (fun t => (unhex a <<< 4 ||| unhex b) :: t) := by
  simp [unescape, ha, hb, hm]

theorem unescape_escapeByte_append (c : Byte) (rest : GoString) (mode : Encoding)
    (hm : mode ≠ Encoding.encodeHost) :
    unescape (escapeByte c mode ++ rest) mode = (unescape rest mode).map (fun t => c :: t) := by
  rcases escapeByte_shape c mode with ⟨h, h1, h2⟩ | ⟨h1, h2, h⟩ | ⟨h, h1, h2, h3⟩
  · rw [h]
    by_cases hp : c = 43
    · subst hp
      have := unescape_cons_plus rest mode
      simpa [h2 rfl] using this
    · exact unescape_cons_plain c rest mode h1 hp hm
  · rw [h, h1]
    have := unescape_cons_plus rest mode
    simpa [h2] using this
  · rw [h]
    have := unescape_cons_percent _ _ rest mode h1 h2 hm
    rw [h3] at this
    exact this

theorem unescape_escape (s : GoString) (mode : Encoding) (hm : mode ≠ Encoding.encodeHost) :
    unescape (escape s mode) mode = some s := by
  induction s with
  | nil => simp [escape, unescape]
  | cons c rest ih =>
    rw [escape_cons, unescape_escapeByte_append c _ mode hm, ih]
    rfl

theorem escape_path_head (s : GoString) :
    (escape s Encoding.encodePath).head? = some 47 ↔ s.head? = some 47 := by
  cases s with
  | nil => simp [escape]
  | cons c rest =>
    rw [escape_cons]
    have hne := escapeByte_ne_nil c Encoding.encodePath
    have hh := escapeByte_path_head c
    cases he : escapeByte c Encoding.encodePath with
    | nil => exact absurd he hne
    | cons x xs =>
      rw [he] at hh
      simpa using hh

theorem escape_eq_nil (s : GoString) (mode : Encoding) : escape s mode = [] ↔ s = [] := by
  cases s with
  | nil => simp [escape]
  | cons c rest =>
    rw [escape_cons]
    have hne := escapeByte_ne_nil c mode
    simp [hne]

/-! ## Query strings: encoding and parsing -/

theorem cut_append (sep : Byte) (a b : GoString) (h : sep ∉ a) :
    cut sep (a ++ sep :: b) = (a, b, true) := by
  induction a with
  | nil => simp [cut]
  | cons c rest ih =>
    simp only [List.mem_cons, not_or] at h
    have hc : ¬ c = sep := fun hh => h.1 hh.symm
    simp [cut, hc, ih h.2]

theorem cut_absent (sep : Byte) (a : GoString) (h : sep ∉ a) : cut sep a = (a, [], false) := by
  induction a with
  | nil => simp [cut]
  | cons c rest ih =>
    simp only [List.mem_cons, not_or] at h
    have hc : ¬ c = sep := fun hh => h.1 hh.symm
    simp [cut, hc, ih h.2]

theorem encodePair_clean (kv : GoString × GoString) (b : Byte) (hb : b ∈ encodePair kv) :
    b ≠ 38 ∧ b ≠ 59 ∧ b ≠ 63 ∧ b ≠ 35 := by
  simp only [encodePair, List.mem_append, List.mem_singleton] at hb
  rcases hb with (hb | hb) | hb
  · have h := escape_query_clean kv.1 b hb
    exact ⟨h.1, h.2.1, h.2.2.2.1, h.2.2.2.2⟩
  · subst hb; decide
  · have h := escape_query_clean kv.2 b hb
    exact ⟨h.1, h.2.1, h.2.2.2.1, h.2.2.2.2⟩

theorem foldl_write_nonempty (ps : List (GoString × GoString)) (buf : GoString) (h : buf ≠ []) :
    ps.foldl (fun buf1 kv =>
        (if buf1.length > 0 then buf1 ++ [38] else buf1) ++ QueryEscape kv.1 ++ [61] ++
          QueryEscape kv.2) buf =
      buf ++ ps.flatMap (fun q => 38 :: encodePair q) := by
  induction ps generalizing buf with
  | nil => simp
  | cons q rest ih =>
    have hlen : buf.length > 0 := List.length_pos.mpr h
    simp only [List.foldl_cons, hlen, if_true]
    rw [ih _ (by simp)]
    simp [encodePair]

theorem foldl_pairsOf (v : StrMap) (g : GoString → GoString × GoString → GoString)
    (ks : List GoString) (buf : GoString) :
    ks.foldl (fun b k => (StrMap.get v k).foldl (fun b1 val => g b1 (k, val)) b) buf =
      (pairsOf v ks).foldl g buf := by
  induction ks generalizing buf with
  | nil => simp [pairsOf]
  | cons k rest ih =>
    simp only [List.foldl_cons, pairsOf, List.flatMap_cons, List.foldl_append, List.foldl_map]
    rw [ih]
    rfl

theorem Encode_eq_fold (v : StrMap) :
    Values.Encode v =
      (pairsOf v ((StrMap.keys v).insertionSort (fun a b => strLe a b = true))).foldl
        (fun buf1 kv =>
          (if buf1.length > 0 then buf1 ++ [38] else buf1) ++ QueryEscape kv.1 ++ [61] ++
            QueryEscape kv.2) [] :=
  foldl_pairsOf v
    (fun buf1 kv =>
      (if buf1.length > 0 then buf1 ++ [38] else buf1) ++ QueryEscape kv.1 ++ [61] ++
        QueryEscape kv.2) _ []

theorem Encode_eq_joinPairs (v : StrMap) :
    Values.Encode v =
      joinPairs (pairsOf v ((StrMap.keys v).insertionSort (fun a b => strLe a b = true))) := by
  rw [Encode_eq_fold]
  cases pairsOf v ((StrMap.keys v).insertionSort (fun a b => strLe a b = true)) with
  | nil => rfl
  | cons p ps =>
    simp only [List.foldl_cons, List.length_nil, gt_iff_lt, lt_self_iff_false, if_false,
      List.nil_append]
    rw [foldl_write_nonempty ps _ (by simp)]
    rfl

theorem joinPairs_clean (ps : List (GoString × GoString)) (b : Byte) (hb : b ∈ joinPairs ps) :
    b ≠ 63 ∧ b ≠ 35 := by
  cases ps with
  | nil => simp [joinPairs] at hb
  | cons p ps =>
    simp only [joinPairs, List.mem_append, List.mem_flatMap, List.mem_cons] at hb
    rcases hb with hb | ⟨q, _, hb | hb⟩
    · exact (encodePair_clean p b hb).2.2
    · subst hb; decide
    · exact (encodePair_clean q b hb).2.2

theorem Encode_clean (v : StrMap) (b : Byte) (hb : b ∈ Values.Encode v) : b ≠ 63 ∧ b ≠ 35 := by
  rw [Encode_eq_joinPairs] at hb
  exact joinPairs_clean _ b hb

theorem str_https : str "https" = [104, 116, 116, 112, 115] := by decide

theorem str_slash : str "/" = [47] := by decide

theorem str_slash2 : str "//" = [47, 47] := by decide

theorem str_slash3 : str "///" = [47, 47, 47] := by decide

theorem str_star : str "*" = [42] := by decide

theorem getLast?_append_of_ne_nil (a b : GoString) (hb : b ≠ []) :
    (a ++ b).getLast? = b.getLast? := by
  cases h : b.getLast? with
  | none => exact absurd (List.getLast?_eq_none_iff.mp h) hb
  | some x => simp [List.getLast?_append, h]

theorem String_https (u : URL) (hs : u.Scheme = str "https") (ho : u.Opaque = []) :
    u.String =
      str "https" ++ 58 ::
        ((u.authorityText ++ u.hostPathSeparator ++ u.EscapedPath) ++ u.queryText) ++
        u.fragmentText := by
  simp [URL.String, hs, ho, str_https]

theorem EscapedPath_clean (u : URL) (b : Byte) (hb : b ∈ u.EscapedPath) : b ≠ 63 ∧ b ≠ 35 := by
  unfold URL.EscapedPath at hb
  split at hb
  · rename_i h
    exact validEncoded_path_clean _ h.2.1 b hb
  · split at hb
    · rw [str_star] at hb
      simp only [List.mem_singleton] at hb
      subst hb; decide
    · exact escape_path_clean _ b hb

theorem EscapedPath_unescape (u : URL) :
    unescape u.EscapedPath Encoding.encodePath = some u.Path := by
  unfold URL.EscapedPath
  split
  · rename_i h
    exact h.2.2
  · split
    · rename_i h
      rw [h]; decide
    · exact unescape_escape _ _ (by decide)

theorem Userinfo.String_clean (ui : Userinfo) (b : Byte) (hb : b ∈ ui.String) :
    b ≠ 47 ∧ b ≠ 63 ∧ b ≠ 35 := by
  unfold Userinfo.String at hb
  simp only [List.mem_append] at hb
  rcases hb with hb | hb
  · exact escape_user_clean _ b hb
  · split at hb
    · simp only [List.mem_cons] at hb
      rcases hb with hb | hb
      · subst hb; decide
      · exact escape_user_clean _ b hb
    · simp at hb

/-- With a host, `String` opens the authority with `//` and what follows holds no `/`. -/
theorem authorityText_host (u : URL) (hh : u.Host ≠ []) :
    ∃ a, u.authorityText = 47 :: 47 :: a ∧ ∀ b ∈ a, b ≠ 47 ∧ b ≠ 63 ∧ b ≠ 35 := by
  refine ⟨(match u.User with
      | some ui => ui.String ++ [64]
      | none => []) ++ escape u.Host Encoding.encodeHost, ?_, ?_⟩
  · simp [URL.authorityText, hh, str_slash2]
  · intro b hb
    simp only [List.mem_append] at hb
    rcases hb with hb | hb
    · cases hu : u.User with
      | none => rw [hu] at hb; simp at hb
      | some ui =>
        rw [hu] at hb
        simp only [List.mem_append, List.mem_singleton] at hb
        rcases hb with hb | hb
        · exact Userinfo.String_clean ui b hb
        · subst hb; decide
    · exact escape_host_clean _ b hb

theorem authorityText_clean (u : URL) (b : Byte) (hb : b ∈ u.authorityText) :
    b ≠ 63 ∧ b ≠ 35 := by
  unfold URL.authorityText at hb
  split at hb
  · split at hb
    · simp at hb
    · simp only [List.mem_append] at hb
      rcases hb with (hb | hb) | hb
      · split at hb
        · rw [str_slash2] at hb
          simp only [List.mem_cons, List.not_mem_nil, or_false, or_self] at hb
          subst hb; decide
        · simp at hb
      · cases hu : u.User with
        | none => rw [hu] at hb; simp at hb
        | some ui =>
          rw [hu] at hb
          simp only [List.mem_append, List.mem_singleton] at hb
          rcases hb with hb | hb
          · exact (Userinfo.String_clean ui b hb).2
          · subst hb; decide
      · split at hb
        · exact (escape_host_clean _ b hb).2
        · simp at hb
  · simp at hb

theorem hostPathSeparator_clean (u : URL) (b : Byte) (hb : b ∈ u.hostPathSeparator) :
    b ≠ 63 ∧ b ≠ 35 := by
  unfold URL.hostPathSeparator at hb
  split at hb
  · simp only [List.mem_singleton] at hb
    subst hb; decide
  · simp at hb

theorem setPath_fields (u u1 : URL) (p : GoString) (h : u.setPath p = some u1) :
    unescape p Encoding.encodePath = some u1.Path ∧ u1.RawQuery = u.RawQuery := by
  unfold URL.setPath at h
  cases hp : unescape p Encoding.encodePath with
  | none => rw [hp] at h; simp at h
  | some path =>
    rw [hp] at h
    simp only [Option.some.injEq] at h
    subst h
    exact ⟨rfl, rfl⟩

theorem setFragment_fields (u u1 : URL) (f : GoString) (h : u.setFragment f = some u1) :
    u1.Path = u.Path ∧ u1.RawQuery = u.RawQuery := by
  unfold URL.setFragment at h
  cases hp : unescape f Encoding.encodeFragment with
  | none => rw [hp] at h; simp at h
  | some frag =>
    rw [hp] at h
    simp only [Option.some.injEq] at h
    subst h
    exact ⟨rfl, rfl⟩

theorem parseTail_RawQuery (pa : GoString → Option Authority) (url u1 : URL) (rest : GoString)
    (h : parseTail pa url rest = some u1) : u1.RawQuery = url.RawQuery := by
  unfold parseTail at h
  split at h
  · simp only [Option.some.injEq] at h
    subst h; rfl
  · split at h
    · simp at h
    · split at h
      · simp only at h
        cases ha : pa (cut 47 (List.drop 2 rest)).1 with
        | none => rw [ha] at h; simp at h
        | some a =>
          rw [ha] at h
          exact (setPath_fields _ _ _ h).2
      · split at h
        · exact (setPath_fields _ _ _ h).2
        · exact (setPath_fields _ _ _ h).2

theorem parseTail_Path (pa : GoString → Option Authority) (url u1 : URL) (a tail : GoString)
    (hs : url.Scheme ≠ []) (ha : (47 : Byte) ∉ a) (ht : tail = [] ∨ tail.head? = some 47)
    (h : parseTail pa url (47 :: 47 :: (a ++ tail)) = some u1) :
    unescape tail Encoding.encodePath = some u1.Path := by
  have hcut : (cut 47 (a ++ tail)).1 = a ∧
      (if (cut 47 (a ++ tail)).2.2 then 47 :: (cut 47 (a ++ tail)).2.1 else []) = tail := by
    rcases ht with ht | ht
    · subst ht
      simp [cut_absent 47 a ha]
    · cases tail with
      | nil => simp at ht
      | cons c t =>
        simp only [List.head?_cons, Option.some.injEq] at ht
        subst ht
        simp [cut_append 47 a t ha]
  unfold parseTail at h
  rw [str_slash, str_slash2, str_slash3] at h
  have hp1 : List.isPrefixOf [(47 : Byte)] (47 :: 47 :: (a ++ tail)) = true := by
    simp [List.isPrefixOf]
  have hp2 : List.isPrefixOf [(47 : Byte), 47] (47 :: 47 :: (a ++ tail)) = true := by
    simp [List.isPrefixOf]
  simp only [hp1, hp2, not_true_eq_false, false_and, if_false, ne_eq, hs, not_false_eq_true,
    true_or, and_self, if_true, List.drop, hcut.1, hcut.2] at h
  cases hpa : pa a with
  | none => rw [hpa] at h; simp at h
  | some au =>
    rw [hpa] at h
    exact (setPath_fields _ _ _ h).1

theorem getScheme_https (rest : GoString) :
    getScheme (str "https" ++ 58 :: rest) = some (str "https", rest) := by
  rw [str_https]
  rfl

theorem parse_https_unfold (pa : GoString → Option Authority) (rest0 : GoString) (u1 : URL)
    (h : parse pa (str "https" ++ 58 :: rest0) = some u1) :
    (if rest0.getLast? = some 63 ∧ rest0.count 63 = 1 then
        parseTail pa { URL.zero with Scheme := str "https", ForceQuery := true } rest0.dropLast
      else
        parseTail pa { URL.zero with Scheme := str "https", RawQuery := (cut 63 rest0).2.1 }
          (cut 63 rest0).1) = some u1 := by
  unfold parse at h
  have hlow : toLower (str "https") = str "https" := by decide
  have hstar : ¬ (str "https" ++ 58 :: rest0 = str "*") := by
    rw [str_https, str_star]; simp
  by_cases hctl : stringContainsCTLByte (str "https" ++ 58 :: rest0) = true
  · simp [hctl] at h
  · simp only [hctl, Bool.false_eq_true, if_false, hstar, getScheme_https, hlow] at h
    exact h

theorem parse_https (pa : GoString → Option Authority) (body : GoString) (u u1 : URL)
    (hb : (63 : Byte) ∉ body) (hq : (63 : Byte) ∉ u.RawQuery)
    (h : parse pa (str "https" ++ 58 :: (body ++ u.queryText)) = some u1) :
    ∃ url : URL, url.Scheme = str "https" ∧ url.RawQuery = u.RawQuery ∧
      parseTail pa url body = some u1 := by
  have h0 := parse_https_unfold pa _ u1 h
  unfold URL.queryText at h0
  by_cases hqe : u.RawQuery = []
  · cases hfq : u.ForceQuery with
    | true =>
      have h1 : (body ++ [63]).getLast? = some 63 := by simp
      have h2 : (body ++ [63]).count 63 = 1 := by
        simp [List.count_append, List.count_eq_zero_of_not_mem hb]
      simp only [hfq, hqe, true_or, if_true, h1, h2, and_self, List.dropLast_concat] at h0
      exact ⟨_, rfl, hqe.symm, h0⟩
    | false =>
      have h1 : ¬ (body.getLast? = some 63) := fun hl => hb (List.mem_of_getLast?_eq_some hl)
      simp only [hfq, hqe, Bool.false_eq_true, ne_eq, not_true_eq_false, or_self, if_false,
        List.append_nil, h1, false_and, cut_absent 63 body hb] at h0
      exact ⟨_, rfl, hqe.symm, h0⟩
  · have h1 : ¬ ((body ++ 63 :: u.RawQuery).getLast? = some 63) := by
      intro hl
      have h2 : (body ++ 63 :: u.RawQuery).getLast? = u.RawQuery.getLast? := by
        have := getLast?_append_of_ne_nil (body ++ [63]) u.RawQuery hqe
        simpa using this
      rw [h2] at hl
      exact hq (List.mem_of_getLast?_eq_some hl)
    simp only [ne_eq, hqe, not_false_eq_true, or_true, if_true, h1, false_and, if_false,
      cut_append 63 body u.RawQuery hb] at h0
    exact ⟨{ URL.zero with Scheme := str "https", RawQuery := u.RawQuery }, rfl, rfl, h0⟩

theorem Parse_cut (pa : GoString → Option Authority) (x : GoString) (u u1 : URL)
    (hx : (35 : Byte) ∉ x) (h : Parse pa (x ++ u.fragmentText) = some u1) :
    ∃ u0, parse pa x = some u0 ∧ u1.Path = u0.Path ∧ u1.RawQuery = u0.RawQuery := by
  unfold Parse URL.fragmentText at h
  by_cases hf : u.Fragment = []
  · simp only [hf, ne_eq, not_true_eq_false, if_false, List.append_nil, cut_absent 35 x hx] at h
    cases hp : parse pa x with
    | none => rw [hp] at h; simp at h
    | some u0 =>
      rw [hp] at h
      simp only [if_true, Option.some.injEq] at h
      subst h
      exact ⟨_, rfl, rfl, rfl⟩
  · simp only [ne_eq, hf, not_false_eq_true, if_true, cut_append 35 x _ hx] at h
    cases hp : parse pa x with
    | none => rw [hp] at h; simp at h
    | some u0 =>
      rw [hp] at h
      simp only at h
      split at h
      · simp only [Option.some.injEq] at h
        subst h
        exact ⟨_, rfl, rfl, rfl⟩
      · have := setFragment_fields _ _ _ h
        exact ⟨_, rfl, this.1, this.2⟩

/-- What `url.Parse` reads back from the text `String` wrote for a URL with
scheme `https` and no opaque part: the query as it was and, when there is a
host, the path with the separator `String` put in front of it. -/
theorem Parse_String (pa : GoString → Option Authority) (u u1 : URL)
    (hs : u.Scheme = str "https") (ho : u.Opaque = [])
    (hq : ∀ b ∈ u.RawQuery, b ≠ 63 ∧ b ≠ 35) (h : Parse pa u.String = some u1) :
    u1.RawQuery = u.RawQuery ∧ (u.Host ≠ [] → u1.Path = u.hostPathSeparator ++ u.Path) := by
  rw [String_https u hs ho] at h
  have hbody : ∀ b ∈ u.authorityText ++ u.hostPathSeparator ++ u.EscapedPath,
      b ≠ 63 ∧ b ≠ 35 := by
    intro b hb
    simp only [List.mem_append] at hb
    rcases hb with (hb | hb) | hb
    · exact authorityText_clean u b hb
    · exact hostPathSeparator_clean u b hb
    · exact EscapedPath_clean u b hb
  have hqt : ∀ b ∈ u.queryText, b ≠ 35 := by
    intro b hb
    unfold URL.queryText at hb
    split at hb
    · simp only [List.mem_cons] at hb
      rcases hb with hb | hb
      · subst hb; decide
      · exact (hq b hb).2
    · simp at hb
  have hx : (35 : Byte) ∉ str "https" ++ 58 ::
      ((u.authorityText ++ u.hostPathSeparator ++ u.EscapedPath) ++ u.queryText) := by
    rw [str_https]
    intro hmem
    simp only [List.cons_append, List.nil_append, List.mem_cons, List.mem_append] at hmem
    rcases hmem with hmem | hmem | hmem | hmem | hmem | hmem | hmem | hmem
    · exact absurd hmem (by decide)
    · exact absurd hmem (by decide)
    · exact absurd hmem (by decide)
    · exact absurd hmem (by decide)
    · exact absurd hmem (by decide)
    · exact absurd hmem (by decide)
    · exact (hbody 35 (by simp only [List.mem_append]; exact hmem)).2 rfl
    · exact hqt 35 hmem rfl
  obtain ⟨u0, hp, hpath, hquery⟩ := Parse_cut pa _ u u1 hx h
  obtain ⟨url, hsch, hrq, htail⟩ := parse_https pa _ u u0
    (fun hm => (hbody 63 hm).1 rfl) (fun hm => (hq 63 hm).1 rfl) hp
  refine ⟨?_, ?_⟩
  · rw [hquery, parseTail_RawQuery pa url u0 _ htail, hrq]
  · intro hh
    obtain ⟨a, hauth, haclean⟩ := authorityText_host u hh
    rw [hauth] at htail
    have ht : u.hostPathSeparator ++ u.EscapedPath = [] ∨
        (u.hostPathSeparator ++ u.EscapedPath).head? = some 47 := by
      unfold URL.hostPathSeparator
      by_cases he : u.EscapedPath = []
      · simp [he]
      · by_cases h47 : u.EscapedPath.head? = some 47
        · right
          simp [he, h47]
        · right
          simp [he, h47, hh]
    have htail2 : parseTail pa url (47 :: 47 :: (a ++ (u.hostPathSeparator ++ u.EscapedPath))) =
        some u0 := by
      simpa [List.append_assoc] using htail
    have hun := parseTail_Path pa url u0 a _ (by rw [hsch, str_https]; simp)
      (fun hm => (haclean 47 hm).1 rfl) ht htail2
    have hsep : unescape (u.hostPathSeparator ++ u.EscapedPath) Encoding.encodePath =
        some (u.hostPathSeparator ++ u.Path) := by
      unfold URL.hostPathSeparator
      split
      · have := unescape_cons_plain 47 u.EscapedPath Encoding.encodePath (by decide) (by decide)
          (by decide)
        simp only [List.singleton_append]
        rw [this, EscapedPath_unescape]
        rfl
      · simpa using EscapedPath_unescape u
    rw [hsep] at hun
    rw [hpath]
    exact (Option.some.inj hun).symm

/-! ## Telemetry -/

/-- C10 as stated fails: no outcome makes the handler increment exactly one
counter. A request that brings its own `Authorization` header and is answered
200 by the upstream gives two increments, `proxied_total` and
`proxied_status{code="200"}`; the same request with the upstream out of reach
gives two, `proxied_total` and `proxied_error`; a request for which no token
can be minted gives two, `tokens_total` and `tokens_error`; and a request whose
outbound request cannot be built gives none. -/
theorem not_one_event_per_request :
    (handler sampleEnv (str "prom:9090") (str "/api/v1") { Token := none } World.init
        ResponseWriter.fresh authedRequest).world.metrics =
      [Event.proxiedTotal, Event.proxiedStatus (str "200")] ∧
    (handler downEnv (str "prom:9090") (str "/api/v1") { Token := none } World.init
        ResponseWriter.fresh authedRequest).world.metrics =
      [Event.proxiedTotal, Event.proxiedError] ∧
    (handler noTokenEnv (str "prom:9090") (str "/api/v1") { Token := none } World.init
        ResponseWriter.fresh plainRequest).world.metrics =
      [Event.tokensTotal, Event.tokensError] ∧
    (handler sampleEnv (str "prom:9090") (str "/api/v1") { Token := none } World.init
        ResponseWriter.fresh badMethodRequest).world.metrics = [] ∧
    (handler sampleEnv (str "prom:9090") (str "/api/v1") { Token := none } World.init
        ResponseWriter.fresh authedRequest).world.metrics.length ≠
      World.init.metrics.length + 1 ∧
    (handler sampleEnv (str "prom:9090") (str "/api/v1") { Token := none } World.init
        ResponseWriter.fresh badMethodRequest).world.metrics.length ≠
      World.init.metrics.length + 1 := by
  decide

/-- C10, amended: the counters a run of the handler increments are fixed by its
outcome. (1) Request-build failure: none. (2) Token unavailable
(`GetAccessToken` returns an error): `tokens_total` then `tokens_error`, both
inside `GetAccessToken`, and no `proxied_*` counter. (3) The request brings its
own `Authorization` values: `proxied_total`, then the outcome event, which is
`proxied_error` when the upstream call fails and `proxied_status` labelled with
the decimal status code when it returns a response. (4) `GetAccessToken`
returns a token: the same two, after `tokens_total` when the token had to be
fetched (nothing cached, or the cached token expired) and after nothing when
the cached token was still valid. -/
theorem handler_counter_increments (env : Env) (remote pre : GoString) (m : Mint) (world : World)
    (w : ResponseWriter) (rqst : Request) :
    (NewRequest env.parseAuthority rqst.Method (rewriteURL remote pre rqst.URL).String
        rqst.Body = none →
      (handler env remote pre m world w rqst).world.metrics = world.metrics) ∧
    ((NewRequest env.parseAuthority rqst.Method (rewriteURL remote pre rqst.URL).String
        rqst.Body).isSome = true →
      Header.Values rqst.Header (str "Authorization") = [] →
      (∃ msg, (GetAccessToken env.tokenSource env.now m world).1 = TokenOutcome.error msg) →
      (handler env remote pre m world w rqst).world.metrics =
        world.metrics ++ [Event.tokensTotal, Event.tokensError]) ∧
    ((NewRequest env.parseAuthority rqst.Method (rewriteURL remote pre rqst.URL).String
        rqst.Body).isSome = true →
      Header.Values rqst.Header (str "Authorization") ≠ [] →
      ∃ p, (handler env remote pre m world w rqst).sent = some p ∧
        (handler env remote pre m world w rqst).world.metrics =
          world.metrics ++
            [Event.proxiedTotal,
              match env.clientDo p with
              | none => Event.proxiedError
              | some pResp => Event.proxiedStatus (Itoa pResp.StatusCode)]) ∧
    ((NewRequest env.parseAuthority rqst.Method (rewriteURL remote pre rqst.URL).String
        rqst.Body).isSome = true →
      Header.Values rqst.Header (str "Authorization") = [] →
      (∃ t, (GetAccessToken env.tokenSource env.now m world).1 = TokenOutcome.ok t) →
      ∃ p, (handler env remote pre m world w rqst).sent = some p ∧
        (handler env remote pre m world w rqst).world.metrics =
          world.metrics ++
            (match m.Token with
              | none => [Event.tokensTotal]
              | some T => if T.Expiry < env.now then [Event.tokensTotal] else []) ++
            [Event.proxiedTotal,
              match env.clientDo p with
              | none => Event.proxiedError
              | some pResp => Event.proxiedStatus (Itoa pResp.StatusCode)]) := by
  refine ⟨?_, ?_, ?_, ?_⟩
  · intro hbuild
    rw [handler_build_failed env remote pre m world w rqst hbuild,
      (answerError_sent _ _ _ _ _ _).2.2.1]
    rfl
  · intro hbuild hauth ⟨msg, herr⟩
    obtain ⟨p0, hp0⟩ := Option.isSome_iff_exists.mp hbuild
    have hm := GetAccessToken_metrics env.tokenSource env.now m world
    rw [handler_mint env remote pre m world w rqst p0 hp0 hauth]
    rcases hg : GetAccessToken env.tokenSource env.now m world with ⟨out, m1, world1⟩
    rw [hg] at herr hm
    simp only at herr
    subst herr
    simp only [(answerError_sent _ _ _ _ _ _).2.2.1]
    exact hm
  · intro hbuild hauth
    obtain ⟨p0, hp0⟩ := Option.isSome_iff_exists.mp hbuild
    rw [handler_passthrough env remote pre m world w rqst p0 hp0 hauth]
    exact ⟨_, forward_sent _ _ _ _ _ _, by rw [(forward_world _ _ _ _ _ _).2]; rfl⟩
  · intro hbuild hauth ⟨t, htok⟩
    obtain ⟨p0, hp0⟩ := Option.isSome_iff_exists.mp hbuild
    rw [handler_mint env remote pre m world w rqst p0 hp0 hauth]
    have hmet : (GetAccessToken env.tokenSource env.now m world).2.2.metrics =
        world.metrics ++
          (match m.Token with
            | none => [Event.tokensTotal]
            | some T => if T.Expiry < env.now then [Event.tokensTotal] else []) := by
      rcases hr : env.tokenSource world.tokenCalls with ⟨tok, err⟩
      rcases m with ⟨_ | T⟩
      · cases err <;> cases tok <;>
          simp_all [GetAccessToken, Mint.check, Mint.deref, World.print, World.inc]
      · by_cases hlt : T.Expiry < env.now
        · cases err <;> cases tok <;>
            simp_all [GetAccessToken, Mint.check, Mint.deref, World.print, World.inc]
        · simp [GetAccessToken, Mint.check, Mint.deref, hlt]
    rcases hg : GetAccessToken env.tokenSource env.now m world with ⟨out, m1, world1⟩
    rw [hg] at htok hmet
    simp only at htok hmet
    subst htok
    refine ⟨_, forward_sent _ _ _ _ _ _, ?_⟩
    rw [(forward_world _ _ _ _ _ _).2, hmet]

theorem handler_counter_increments_witness :
    (handler sampleEnv (str "prom:9090") (str "/api/v1") { Token := none } World.init
        ResponseWriter.fresh badMethodRequest).world.metrics = World.init.metrics ∧
    (handler noTokenEnv (str "prom:9090") (str "/api/v1") { Token := none } World.init
        ResponseWriter.fresh plainRequest).world.metrics =
      World.init.metrics ++ [Event.tokensTotal, Event.tokensError] ∧
    (∃ p, (handler sampleEnv (str "prom:9090") (str "/api/v1") { Token := none } World.init
        ResponseWriter.fresh authedRequest).sent = some p ∧
      (handler sampleEnv (str "prom:9090") (str "/api/v1") { Token := none } World.init
        ResponseWriter.fresh authedRequest).world.metrics =
        World.init.metrics ++
          [Event.proxiedTotal,
            match sampleEnv.clientDo p with
            | none => Event.proxiedError
            | some pResp => Event.proxiedStatus (Itoa pResp.StatusCode)]) ∧
    (∃ p, (handler sampleEnv (str "prom:9090") (str "/api/v1") { Token := none } World.init
        ResponseWriter.fresh plainRequest).sent = some p ∧
      (handler sampleEnv (str "prom:9090") (str "/api/v1") { Token := none } World.init
        ResponseWriter.fresh plainRequest).world.metrics =
        World.init.metrics ++
          (match ({ Token := none } : Mint).Token with
            | none => [Event.tokensTotal]
            | some T => if T.Expiry < sampleEnv.now then [Event.tokensTotal] else []) ++
          [Event.proxiedTotal,
            match sampleEnv.clientDo p with
            | none => Event.proxiedError
            | some pResp => Event.proxiedStatus (Itoa pResp.StatusCode)]) :=
  ⟨(handler_counter_increments sampleEnv (str "prom:9090") (str "/api/v1") { Token := none }
      World.init ResponseWriter.fresh badMethodRequest).1 (by decide),
   (handler_counter_increments noTokenEnv (str "prom:9090") (str "/api/v1") { Token := none }
      World.init ResponseWriter.fresh plainRequest).2.1 (by decide) (by decide)
      ⟨str "unable to mint new Token", by decide⟩,
   (handler_counter_increments sampleEnv (str "prom:9090") (str "/api/v1") { Token := none }
      World.init ResponseWriter.fresh authedRequest).2.2.1 (by decide) (by decide),
   (handler_counter_increments sampleEnv (str "prom:9090") (str "/api/v1") { Token := none }
      World.init ResponseWriter.fresh plainRequest).2.2.2 (by decide) (by decide)
      ⟨str "fresh", by decide⟩⟩

/-! ## The outbound URL -/

theorem EscapedPath_head (u : URL) (hraw : u.RawPath = [] ∨ u.RawPath.head? = some 47) :
    (u.EscapedPath = [] ↔ u.Path = []) ∧
    (u.EscapedPath.head? = some 47 ↔ u.Path.head? = some 47) := by
  unfold URL.EscapedPath
  split
  · rename_i h
    obtain ⟨hne, _, hun⟩ := h
    rcases hraw with hraw | hraw
    · exact absurd hraw hne
    · cases hr : u.RawPath with
      | nil => exact absurd hr hne
      | cons c t =>
        rw [hr] at hraw hun
        simp only [List.head?_cons, Option.some.injEq] at hraw
        subst hraw
        rw [unescape_cons_plain 47 t _ (by decide) (by decide) (by decide)] at hun
        cases ht : unescape t Encoding.encodePath with
        | none => rw [ht] at hun; simp at hun
        | some t1 =>
          rw [ht] at hun
          simp only [Option.map_some', Option.some.injEq] at hun
          rw [← hun]
          simp
  · split
    · rename_i h
      rw [h, str_star]
      simp
    · exact ⟨escape_eq_nil _ _, escape_path_head _⟩

theorem rewriteURL_separator (remote pre : GoString) (u : URL) (hremote : remote ≠ [])
    (hraw : u.RawPath = [] ∨ u.RawPath.head? = some 47) :
    (rewriteURL remote pre u).hostPathSeparator ++ (pre ++ u.Path) =
      if pre ++ u.Path = [] ∨ (pre ++ u.Path).head? = some 47 then pre ++ u.Path
      else 47 :: (pre ++ u.Path) := by
  have hh := EscapedPath_head (rewriteURL remote pre u) hraw
  have hpath : (rewriteURL remote pre u).Path = pre ++ u.Path := rfl
  have hhost : (rewriteURL remote pre u).Host = remote := rfl
  rw [hpath] at hh
  unfold URL.hostPathSeparator
  rw [hhost]
  by_cases h1 : pre ++ u.Path = []
  · have e1 := hh.1.mpr h1
    rw [if_neg (fun h => h.1 e1), if_pos (Or.inl h1)]
    rfl
  · by_cases h2 : (pre ++ u.Path).head? = some 47
    · have e2 := hh.2.mpr h2
      rw [if_neg (fun h => h.2.1 e2), if_pos (Or.inr h2)]
      rfl
    · have e1 : ¬ (rewriteURL remote pre u).EscapedPath = [] := fun h => h1 (hh.1.mp h)
      have e2 : ¬ (rewriteURL remote pre u).EscapedPath.head? = some 47 :=
        fun h => h2 (hh.2.mp h)
      rw [if_pos ⟨e1, e2, hremote⟩, if_neg (fun h => h.elim h1 h2)]
      rfl

/-- The URL of a request given to the upstream, read off the inbound URL. -/
theorem sent_URL (env : Env) (remote pre : GoString) (m : Mint) (world : World)
    (w : ResponseWriter) (rqst : Request) (p : OutRequest) (hplain : rqst.URL.Opaque = [])
    (hsent : (handler env remote pre m world w rqst).sent = some p) :
    p.URL.RawQuery = Values.Encode (Values.Del (ParseQuery rqst.URL.RawQuery) (str "refresh")) ∧
    (remote ≠ [] →
      p.URL.Path = (rewriteURL remote pre rqst.URL).hostPathSeparator ++ (pre ++ rqst.URL.Path)) := by
  obtain ⟨p0, h, m1, world1, rqst1, hnew, hp, _⟩ :=
    handler_sent_cases env remote pre m world w rqst p hsent
  obtain ⟨u, hparse, hpath, hquery⟩ := NewRequest_fields _ _ _ _ p0 hnew
  have hps := Parse_String env.parseAuthority (rewriteURL remote pre rqst.URL) u rfl hplain
    (fun b hb => Encode_clean _ b hb) hparse
  subst hp
  refine ⟨?_, ?_⟩
  · show p0.URL.RawQuery = _
    rw [hquery, hps.1]
    rfl
  · intro hremote
    show p0.URL.Path = _
    rw [hpath, hps.2 hremote]
    rfl

/-- C6 as stated fails: with the prefix `api` and the inbound path `/query` the
request given to the upstream has the path `/api/query`, not the concatenation
`api/query`: `URL.String` writes a `/` between the host and a path that does
not start with one. -/
theorem separator_inserted_before_relative_path :
    ∃ p, (handler sampleEnv (str "prom:9090") (str "api") { Token := none } World.init
        ResponseWriter.fresh plainRequest).sent = some p ∧
      p.URL.Path = str "/api/query" ∧
      p.URL.Path ≠ str "api" ++ plainRequest.URL.Path := by
  refine ⟨(handler sampleEnv (str "prom:9090") (str "api") { Token := none } World.init
    ResponseWriter.fresh plainRequest).sent.getD
      { Method := [], URL := URL.zero, Header := [], Body := [], Host := [] }, ?_, ?_, ?_⟩ <;>
    decide

/-- C6, amended: with a non-empty upstream host, for an inbound URL without
opaque part and with a raw path that is empty or starts with `/` (as the server
delivers them), the path of the URL of a request given to the upstream is the
concatenation `Pre ++ P` when that is empty or starts with `/`, and `/`
followed by `Pre ++ P` otherwise; nothing is ever put between `Pre` and `P`.
Such a request is given to the upstream whenever it can be built and
credentials are at hand. -/
theorem outbound_path (env : Env) (remote pre : GoString) (m : Mint) (world : World)
    (w : ResponseWriter) (rqst : Request) (hremote : remote ≠ [])
    (hplain : rqst.URL.Opaque = [])
    (hraw : rqst.URL.RawPath = [] ∨ rqst.URL.RawPath.head? = some 47) :
    (∀ p, (handler env remote pre m world w rqst).sent = some p →
      p.URL.Path =
        if pre ++ rqst.URL.Path = [] ∨ (pre ++ rqst.URL.Path).head? = some 47
        then pre ++ rqst.URL.Path else 47 :: (pre ++ rqst.URL.Path)) ∧
    ((NewRequest env.parseAuthority rqst.Method (rewriteURL remote pre rqst.URL).String
        rqst.Body).isSome = true →
      (Header.Values rqst.Header (str "Authorization") ≠ [] ∨
        ∃ t, (GetAccessToken env.tokenSource env.now m world).1 = TokenOutcome.ok t) →
      (handler env remote pre m world w rqst).sent ≠ none) := by
  refine ⟨?_, handler_sends env remote pre m world w rqst⟩
  intro p hsent
  rw [(sent_URL env remote pre m world w rqst p hplain hsent).2 hremote]
  exact rewriteURL_separator remote pre rqst.URL hremote hraw

theorem outbound_path_witness :
    (∀ p, (handler sampleEnv (str "prom:9090") (str "api") { Token := none } World.init
        ResponseWriter.fresh plainRequest).sent = some p →
      p.URL.Path = str "/api/query") ∧
    (∀ p, (handler sampleEnv (str "prom:9090") (str "/api/v1") { Token := none } World.init
        ResponseWriter.fresh plainRequest).sent = some p →
      p.URL.Path = str "/api/v1/query") ∧
    (handler sampleEnv (str "prom:9090") (str "/api/v1") { Token := none } World.init
        ResponseWriter.fresh plainRequest).sent ≠ none := by
  have h1 := outbound_path sampleEnv (str "prom:9090") (str "api") { Token := none } World.init
    ResponseWriter.fresh plainRequest (by decide) rfl (Or.inl rfl)
  have h2 := outbound_path sampleEnv (str "prom:9090") (str "/api/v1") { Token := none }
    World.init ResponseWriter.fresh plainRequest (by decide) rfl (Or.inl rfl)
  refine ⟨fun p hp => ?_, fun p hp => ?_, h2.2 (by decide) (Or.inr ⟨str "fresh", by decide⟩)⟩
  · rw [h1.1 p hp]; decide
  · rw [h2.1 p hp]; decide

end Proxy
